import Mathlib

/-!
Verification development for the `type-extraction` framework.

The definitions below are a shallow embedding, at the declaration level, of
the framework's core pipeline:

* `src/core/rfc-generator.ts` — `RFCCompliantGenerator` (contracts rendering,
  drift detection, extraction map) and the ts-morph based `BaseTypeExtractor`
  (extraction, branded unknowns, forbidden-`any` detection); embedded in
  namespaces `RFC` and `Morph`.
* `src/core/generator.ts` (`TypeGenerator`) — unified/split artifact
  rendering; embedded in namespace `TGen`.
* `src/core/extractor.ts` — the v1 compiler-API `BaseTypeExtractor`; only the
  property-type rendering needed here is embedded, in namespace `V1`.

Modelling conventions:
* JavaScript strings are Lean `String`s; the character-level operations the
  source performs through regular expressions (`\bany\b`,
  `/export\s+(interface|type|enum)\s+(\w+)/g`) are implemented as explicit
  scanners over `List Char` with JS `exec`/`lastIndex` advance semantics.
* `Map<string, ExtractedType>` is an insertion-ordered association list;
  `Map.set` replaces in place when the key exists, else appends.
* `Date.now()` / `new Date().toISOString()` are explicit inputs
  (`nowMs : Nat`, `nowIso : String`) to each function that samples the clock.
* A TypeScript `throw` caught by a caller is `Except`; the error value
  carries the mutable context/file-system state as it stood at the throw.
* File-system effects are a record of the two artifact paths' contents.
-/

namespace TypeExt

/-- JS `\w` word character class: `[A-Za-z0-9_]` (ASCII). -/
def isWordChar (c : Char) : Bool :=
  (('a' ≤ c && c ≤ 'z') || ('A' ≤ c && c ≤ 'Z') || ('0' ≤ c && c ≤ '9') || c = '_')

/-- JS `\s` whitespace class, restricted to its ASCII members
(space, tab, LF, CR, FF, VT); the artifacts scanned here are ASCII. -/
def isWsChar (c : Char) : Bool :=
  (c = ' ' || c = '\t' || c = '\n' || c = '\x0d' || c = '\x0b' || c = '\x0c')

/-- The `kind` field of an extracted declaration
(source values `'interface' | 'type' | 'enum' | 'class'`). -/
inductive DeclKind where
  | iface
  | alias
  | enumDecl
  | classDecl
deriving DecidableEq, Repr

/-- The `PropertyInfo` (src/core/types.ts). -/
structure PropertyInfo where
  name : String
  type : String
  optional : Bool
  readonly : Bool
  documentation : Option String
deriving DecidableEq, Repr

/-- The `ExtractedType` (src/core/types.ts). The ephemeral `astNode` handle is
not carried: it is never read by the functions embedded here.
`extends` is a Lean keyword, so that field is named `extendsList`;
`location` is flattened into `locLine`/`locColumn`. -/
structure ExtractedType where
  name : String
  kind : DeclKind
  definition : String
  sourceFile : String
  locLine : Nat
  locColumn : Nat
  isExported : Bool
  documentation : Option String
  properties : Option (List PropertyInfo)
  typeParameters : List String
  extendsList : List String
deriving DecidableEq, Repr

/-- The `ExtractionError` (src/core/types.ts). -/
structure ExtractionError where
  file : String
  message : String
  type : Option String
  line : Option Nat
  column : Option Nat
deriving DecidableEq, Repr

/-- The `ExtractionMetrics` (src/core/types.ts). -/
structure ExtractionMetrics where
  startTime : Nat
  filesParsed : Nat
  typesExtracted : Nat
  transformsApplied : Nat
  validationsPassed : Nat
  validationsFailed : Nat
  anyTypeViolations : Nat
deriving DecidableEq, Repr

/-- The `ExtractionRules` (src/core/types.ts), restricted to the fields the
embedded pipeline reads: `apiId` and `excludeTypes`.  `transforms`,
`validators` and `naming` are consumed only by adapter-supplied stage
functions, which the embedding takes as explicit arguments. -/
structure ExtractionRules where
  apiId : String
  excludeTypes : Option (List String)
deriving DecidableEq, Repr

/-- The `ExtractionContext` (src/core/types.ts); `types` is the insertion-ordered
name-keyed map. -/
structure ExtractionContext where
  sourceFiles : List String
  types : List (String × ExtractedType)
  rules : ExtractionRules
  metrics : ExtractionMetrics
  errors : List ExtractionError
deriving DecidableEq, Repr

/-- JS `Array.prototype.flatten(sep)`. -/
def jsJoin (sep : String) : List String → String
  | [] => ""
  | [a] => a
  | a :: b :: rest => a ++ sep ++ jsJoin sep (b :: rest)

/-- JS `Map.set`: replace in place if the key is present, else append. -/
def mapSet (m : List (String × ExtractedType)) (k : String) (v : ExtractedType) :
    List (String × ExtractedType) :=
  if m.any (fun p => p.1 = k) then
    m.map (fun p => if p.1 = k then (k, v) else p)
  else
    m ++ [(k, v)]

/-- The `excludeTypes?.includes(name)` with optional chaining. -/
def isExcluded (rules : ExtractionRules) (name : String) : Bool :=
  (rules.excludeTypes.getD []).contains name

end TypeExt

namespace TypeExt.Morph

/-!
The ts-morph based `BaseTypeExtractor` (second half of
src/core/rfc-generator.ts).
-/

open TypeExt

/-- The `BaseTypeExtractor.createBrandedUnknown` (rfc-generator.ts:724-726). -/
def createBrandedUnknown (context detail : String) : String :=
  "unknown & \x7b readonly __brand: \x27" ++ context ++
    "\x27; readonly __context: \x27" ++ detail ++ "\x27 \x7d"

/-- One step of the word-boundary test before a match: `\b` holds at the match
start iff there is no preceding character or it is not a word character. -/
def boundaryBefore : Option Char → Bool
  | none => true
  | some c => !isWordChar c

/-- The `\b` holds after the match iff the input is exhausted or the next
character is not a word character (the source's extra `(?![\w])` lookahead
is the same test). -/
def boundaryAfter : List Char → Bool
  | [] => true
  | c :: _ => !isWordChar c

/-- Positions of the matches of `/\b(any)\b(?![\w])/g` run by repeated `exec`:
a match requires the literal `any` with a word boundary on each side; on a
match the scan resumes after the matched `any` (JS `lastIndex`), otherwise it
advances one character.  `prev` is the character just before the current
position. -/
def findAnyPositionsAux : Nat → Option Char → List Char → Nat → List Nat
  | 0, _, _, _ => []
  | _ + 1, _, [], _ => []
  | fuel + 1, prev, c :: rest, i =>
    if c == 'a' && rest.take 2 == ['n', 'y'] &&
        boundaryBefore prev && boundaryAfter (rest.drop 2) then
      i :: findAnyPositionsAux fuel (some 'y') (rest.drop 2) (i + 3)
    else
      findAnyPositionsAux fuel (some c) rest (i + 1)

/-- The scan run to completion: every step consumes at least one character,
so fuel `length + 1` suffices. -/
def findAnyPositions (prev : Option Char) (l : List Char) (i : Nat) : List Nat :=
  findAnyPositionsAux (l.length + 1) prev l i

/-- JS `String.substring(start, stop)` for `start ≤ stop` (both clamped to
the string's length). -/
def jsSubstring (s : List Char) (start stop : Nat) : List Char :=
  (s.drop start).take (stop - start)

/-- The `BaseTypeExtractor.findAnyInDefinition` (rfc-generator.ts:618-634): each
match contributes a context snippet `definition.substring(max(0, i - 20),
min(definition.length, i + 20))`; the `line`/`column` fields of the returned
records are never set, so an occurrence is just its snippet. -/
def findAnyInDefinition (definition : String) : List String :=
  (findAnyPositions none definition.data 0).map fun i =>
    String.mk (jsSubstring definition.data (i - 20) (min definition.data.length (i + 20)))

/-- The `BaseTypeExtractor.replaceSenseAnyTypes` (rfc-generator.ts:731-736):
`typeString.replace(/\bany\b/g, () => createBrandedUnknown('replaced-any',
context))` as the same boundary-aware scan, splicing in the replacement. -/
def replaceAnyChars (repl : String) (prev : Option Char) : List Char → List Char
  | 'a' :: 'n' :: 'y' :: rest =>
    if boundaryBefore prev && boundaryAfter rest then
      repl.data ++ replaceAnyChars repl (some 'y') rest
    else
      'a' :: replaceAnyChars repl (some 'a') ('n' :: 'y' :: rest)
  | c :: rest => c :: replaceAnyChars repl (some c) rest
  | [] => []

/-- The `BaseTypeExtractor.replaceSenseAnyTypes` wrapper on `String`. -/
def replaceSenseAnyTypes (typeString context : String) : String :=
  String.mk (replaceAnyChars (createBrandedUnknown "replaced-any" context) none typeString.data)

end TypeExt.Morph

namespace TypeExt.Morph

/-- A ts-morph `PropertySignature` as read by the extractor: its name, the
text of its type node when one exists (`getTypeNode()?.getText()`), the
`?` token, the `readonly` modifier and its JSDoc description. -/
structure PropSig where
  name : String
  typeNodeText : Option String
  hasQuestionToken : Bool
  isReadonlyProp : Bool
  jsDoc : Option String
deriving DecidableEq, Repr

/-- A top-level declaration node as read by the extractor: `getName()`,
its syntax kind, `getFullText()`, `getStartLineNumber()`,
`getStartLinePos()`, `isExported()`, JSDoc, properties (interfaces),
type-parameter names and the texts of the `extends` clause. -/
structure Decl where
  name : String
  kind : DeclKind
  fullText : String
  startLine : Nat
  startLinePos : Nat
  isExported : Bool
  jsDoc : Option String
  props : List PropSig
  typeParams : List String
  extendsTexts : List String
deriving DecidableEq, Repr

/-- A parsed source file: its path and its top-level declarations in source
order. -/
structure SrcFile where
  path : String
  decls : List Decl
deriving DecidableEq, Repr

/-- The `BaseTypeExtractor.getPropertyTypeString` (rfc-generator.ts:694-714).
`parentKindName` is `prop.getParent()?.getKindName()` — for a property of an
interface declaration this is the syntax-kind name `"InterfaceDeclaration"`,
not the interface's own name. -/
def getPropertyTypeString (parentKindName : String) (prop : PropSig) : String :=
  match prop.typeNodeText with
  | none => createBrandedUnknown "property" prop.name
  | some typeString =>
    if typeString = "any" then
      createBrandedUnknown "property" (parentKindName ++ "." ++ prop.name)
    else
      replaceSenseAnyTypes typeString prop.name

/-- The `BaseTypeExtractor.extractProperties` (rfc-generator.ts:674-689).  The
properties come from an `InterfaceDeclaration` node, whose kind name is
`"InterfaceDeclaration"`. -/
def extractProperties (props : List PropSig) : List PropertyInfo :=
  props.map fun p =>
    { name := p.name
      type := getPropertyTypeString "InterfaceDeclaration" p
      optional := p.hasQuestionToken
      readonly := p.isReadonlyProp
      documentation := p.jsDoc }

/-- The `BaseTypeExtractor.addError` (rfc-generator.ts:879-881). -/
def addError (c : ExtractionContext) (file message : String)
    (type : Option String) (line column : Option Nat) : ExtractionContext :=
  { c with errors := c.errors ++ [{ file, message, type, line, column }] }

/-- The `BaseTypeExtractor.extractInterface` (rfc-generator.ts:642-669). -/
def extractInterface (path : String) (c : ExtractionContext) (d : Decl) :
    ExtractionContext :=
  if isExcluded c.rules d.name then c
  else
    let et : ExtractedType :=
      { name := d.name
        kind := DeclKind.iface
        definition := d.fullText
        sourceFile := path
        locLine := d.startLine
        locColumn := d.startLinePos
        isExported := d.isExported
        documentation := d.jsDoc
        properties := some (extractProperties d.props)
        typeParameters := d.typeParams
        extendsList := d.extendsTexts }
    { c with
        types := mapSet c.types d.name et
        metrics := { c.metrics with typesExtracted := c.metrics.typesExtracted + 1 } }

/-- The `BaseTypeExtractor.extractTypeAlias` (rfc-generator.ts:752-776). -/
def extractTypeAlias (path : String) (c : ExtractionContext) (d : Decl) :
    ExtractionContext :=
  if isExcluded c.rules d.name then c
  else
    let et : ExtractedType :=
      { name := d.name
        kind := DeclKind.alias
        definition := d.fullText
        sourceFile := path
        locLine := d.startLine
        locColumn := d.startLinePos
        isExported := d.isExported
        documentation := d.jsDoc
        properties := none
        typeParameters := d.typeParams
        extendsList := [] }
    { c with
        types := mapSet c.types d.name et
        metrics := { c.metrics with typesExtracted := c.metrics.typesExtracted + 1 } }

/-- The `BaseTypeExtractor.extractEnum` (rfc-generator.ts:781-804). -/
def extractEnum (path : String) (c : ExtractionContext) (d : Decl) :
    ExtractionContext :=
  if isExcluded c.rules d.name then c
  else
    let et : ExtractedType :=
      { name := d.name
        kind := DeclKind.enumDecl
        definition := d.fullText
        sourceFile := path
        locLine := d.startLine
        locColumn := d.startLinePos
        isExported := d.isExported
        documentation := d.jsDoc
        properties := none
        typeParameters := []
        extendsList := [] }
    { c with
        types := mapSet c.types d.name et
        metrics := { c.metrics with typesExtracted := c.metrics.typesExtracted + 1 } }

/-- The `BaseTypeExtractor.extractClass` (rfc-generator.ts:809-834); a class node
always has a name in this model, so the `'AnonymousClass'` fallback is not
reached. -/
def extractClass (path : String) (c : ExtractionContext) (d : Decl) :
    ExtractionContext :=
  if isExcluded c.rules d.name then c
  else
    let et : ExtractedType :=
      { name := d.name
        kind := DeclKind.classDecl
        definition := d.fullText
        sourceFile := path
        locLine := d.startLine
        locColumn := d.startLinePos
        isExported := d.isExported
        documentation := d.jsDoc
        properties := none
        typeParameters := d.typeParams
        extendsList := d.extendsTexts }
    { c with
        types := mapSet c.types d.name et
        metrics := { c.metrics with typesExtracted := c.metrics.typesExtracted + 1 } }

/-- The `BaseTypeExtractor.parseFile` (rfc-generator.ts:561-585): bump
`filesParsed`, then extract the file's interfaces, type aliases, enums and
those classes accepted by the `shouldExtractClass` hook (`pred`; the base
class rejects every class). -/
def parseFile (pred : Decl → Bool) (c : ExtractionContext) (f : SrcFile) :
    ExtractionContext :=
  let c0 := { c with metrics := { c.metrics with filesParsed := c.metrics.filesParsed + 1 } }
  let c1 := (f.decls.filter (fun d => d.kind = DeclKind.iface)).foldl (extractInterface f.path) c0
  let c2 := (f.decls.filter (fun d => d.kind = DeclKind.alias)).foldl (extractTypeAlias f.path) c1
  let c3 := (f.decls.filter (fun d => d.kind = DeclKind.enumDecl)).foldl (extractEnum f.path) c2
  (f.decls.filter (fun d => d.kind = DeclKind.classDecl && pred d)).foldl (extractClass f.path) c3

/-- The message of the error appended for one `any` occurrence in type
`name` (rfc-generator.ts:600-606). -/
def anyViolationMessage (name snippet : String) : String :=
  "Type \x27" ++ name ++ "\x27 contains \x27any\x27 type: " ++ snippet ++
    ". Use a specific type or branded unknown instead."

/-- The error entry appended for one `any` occurrence in type `name`
(rfc-generator.ts:600-606). -/
def anyViolationError (sourceFile name snippet : String) : ExtractionError :=
  { file := sourceFile
    message := anyViolationMessage name snippet
    type := some "any-type-violation"
    line := none
    column := none }

/-- The message of the `Error` thrown by `detectAnyTypes`
(rfc-generator.ts:610). -/
def anyViolationThrowMessage (occurrenceCount : Nat) : String :=
  "Extraction failed: " ++ toString occurrenceCount ++
    " \x27any\x27 type violations found. See errors for details."

/-- Loop body of `BaseTypeExtractor.detectAnyTypes` (rfc-generator.ts:592-613)
over the remaining map entries: the first entry whose definition has
occurrences bumps `anyTypeViolations` once, appends one error per occurrence,
and throws — the error value carries the context as mutated so far. -/
def detectAnyTypesGo (c : ExtractionContext) :
    List (String × ExtractedType) → Except (ExtractionContext × String) ExtractionContext
  | [] => Except.ok c
  | (name, et) :: rest =>
    let occ := findAnyInDefinition et.definition
    if occ.isEmpty then
      detectAnyTypesGo c rest
    else
      let c1 := { c with metrics :=
        { c.metrics with anyTypeViolations := c.metrics.anyTypeViolations + 1 } }
      let c2 := occ.foldl
        (fun acc snippet =>
          addError acc et.sourceFile (anyViolationMessage name snippet)
            (some "any-type-violation") none none) c1
      Except.error (c2, anyViolationThrowMessage occ.length)

/-- The `BaseTypeExtractor.detectAnyTypes` (rfc-generator.ts:592-613). -/
def detectAnyTypes (c : ExtractionContext) :
    Except (ExtractionContext × String) ExtractionContext :=
  detectAnyTypesGo c c.types

/-- The fresh context built by the `BaseTypeExtractor` constructor
(rfc-generator.ts:481-511); `startTime` is the `Date.now()` sample taken
there. -/
def initialContext (rules : ExtractionRules) (startTime : Nat) : ExtractionContext :=
  { sourceFiles := []
    types := []
    rules := rules
    metrics :=
      { startTime := startTime
        filesParsed := 0
        typesExtracted := 0
        transformsApplied := 0
        validationsPassed := 0
        validationsFailed := 0
        anyTypeViolations := 0 }
    errors := [] }

/-- The `try` body of `extract` (rfc-generator.ts:531-550): parse every file,
run the adapter-supplied `applyTransformations` and `validateTypes` stages
(each may mutate the context and may throw, carrying the context as mutated),
then `detectAnyTypes`. -/
def runPipeline (pred : Decl → Bool)
    (transformStage validateStage :
      ExtractionContext → Except (ExtractionContext × String) ExtractionContext)
    (files : List SrcFile) (c : ExtractionContext) :
    Except (ExtractionContext × String) ExtractionContext := do
  let c1 := files.foldl (parseFile pred) c
  let c2 ← transformStage c1
  let c3 ← validateStage c2
  detectAnyTypes c3

/-- The `BaseTypeExtractor.extract` (rfc-generator.ts:528-556): record the input
paths, run the pipeline, and catch any internal throw, converting it into one
`'Extraction failed: …'` error entry on the context accumulated so far; the
context is always returned normally. -/
def extract (pred : Decl → Bool)
    (transformStage validateStage :
      ExtractionContext → Except (ExtractionContext × String) ExtractionContext)
    (rules : ExtractionRules) (startTime : Nat) (files : List SrcFile) :
    ExtractionContext :=
  let c0 := { initialContext rules startTime with sourceFiles := files.map SrcFile.path }
  match runPipeline pred transformStage validateStage files c0 with
  | Except.ok c => c
  | Except.error (c, msg) => addError c "" ("Extraction failed: " ++ msg) none none none

end TypeExt.Morph

namespace TypeExt

/-- JS `String.startsWith`. -/
def jsStartsWith (s pre : String) : Bool :=
  pre.data.isPrefixOf s.data

/-- The 76-character `=` run used in all section separator lines. -/
def sep76 : String :=
  String.mk (List.replicate 76 '=')

/-- Strict code-unit lexicographic order on strings: JS string comparison
(`<`, and the default `Array.prototype.sort` comparator) compares code
units; here names are ASCII so code points coincide. -/
def strLtChars : List Char → List Char → Bool
  | [], [] => false
  | [], _ :: _ => true
  | _ :: _, [] => false
  | a :: as, b :: bs =>
    if a.toNat < b.toNat then true
    else if b.toNat < a.toNat then false
    else strLtChars as bs

/-- See `strLtChars`. -/
def jsStrLt (a b : String) : Bool :=
  strLtChars a.data b.data

/-- Ascending insertion by `name`; models `Array.prototype.sort` with the
`localeCompare` comparator, taking `localeCompare` as code-point order (all
generated names are ASCII). -/
def insertByName (x : ExtractedType) : List ExtractedType → List ExtractedType
  | [] => [x]
  | y :: ys => if jsStrLt x.name y.name then x :: y :: ys else y :: insertByName x ys

/-- Sort a kind bucket by type name. -/
def sortByName (l : List ExtractedType) : List ExtractedType :=
  l.foldl (fun acc x => insertByName x acc) []

/-- The four kind buckets returned by `groupTypesByKind`. -/
structure KindGroups where
  ifaceG : List ExtractedType
  aliasG : List ExtractedType
  enumG : List ExtractedType
  classG : List ExtractedType
deriving DecidableEq, Repr


/-- JS `String.split('\n')` at character level.  The result is always
non-empty (splitting the empty string gives `[""]`, as in JS). -/
def splitLinesChars : List Char → List (List Char)
  | [] => [[]]
  | '\n' :: rest => [] :: splitLinesChars rest
  | c :: rest =>
    match splitLinesChars rest with
    | h :: t => (c :: h) :: t
    | [] => [[c]]

/-- JS `String.split('\n')` on `String`. -/
def jsSplitNewline (s : String) : List String :=
  (splitLinesChars s.data).map String.mk

/-- JS `String.trim()` (whitespace restricted to the ASCII class, see
`isWsChar`; the trimmed definitions here are ASCII). -/
def jsTrim (s : String) : String :=
  String.mk (((s.data.dropWhile isWsChar).reverse.dropWhile isWsChar).reverse)

/-- Ascending insertion for `Array.prototype.sort()` on strings (default JS
sort compares code units; the names sorted here are ASCII). -/
def insertStr (x : String) : List String → List String
  | [] => [x]
  | y :: ys => if jsStrLt x y then x :: y :: ys else y :: insertStr x ys

/-- JS `Array.prototype.sort()` on a string array. -/
def sortStrings (l : List String) : List String :=
  l.foldl (fun acc x => insertStr x acc) []

end TypeExt

namespace TypeExt.TGen

/-!
`TypeGenerator` (src/core/generator.ts).  Only artifact text is modelled;
`writeFileSync` writes the returned string.
-/

open TypeExt

/-- The `TypeGenerator.groupTypesByKind` (generator.ts): partition the map's
values by kind (insertion order), then sort each bucket by name. -/
def groupTypesByKind (types : List (String × ExtractedType)) : KindGroups :=
  let vals := types.map Prod.snd
  { ifaceG := sortByName (vals.filter (fun t => t.kind = DeclKind.iface))
    aliasG := sortByName (vals.filter (fun t => t.kind = DeclKind.alias))
    enumG := sortByName (vals.filter (fun t => t.kind = DeclKind.enumDecl))
    classG := sortByName (vals.filter (fun t => t.kind = DeclKind.classDecl)) }

/-- The `TypeGenerator.generateProperty` (generator.ts:304-330). -/
def generateProperty (p : PropertyInfo) : String :=
  (match p.documentation with
    | some d => "  /** " ++ d ++ " */\n"
    | none => "") ++
  "  " ++ (if p.readonly then "readonly " else "") ++ p.name ++
  (if p.optional then "?" else "") ++ ": " ++ p.type ++ ";\n"

/-- The `TypeGenerator.generateInterface` (generator.ts:266-299). -/
def generateInterface (t : ExtractedType) : String :=
  (if t.isExported then "export " else "") ++
  "interface " ++ t.name ++
  (if t.typeParameters.length > 0 then
    "<" ++ jsJoin ", " t.typeParameters ++ ">"
  else "") ++
  (if t.extendsList.length > 0 then
    " extends " ++ jsJoin ", " t.extendsList
  else "") ++
  " \x7b\n" ++
  (match t.properties with
    | some ps => String.join (ps.map generateProperty)
    | none => "") ++
  "\x7d"

/-- The `TypeGenerator.generateTypeAlias` (generator.ts:335-342): the stored raw
definition, with `export ` prepended only when the type is exported and the
definition does not already start with `export`. -/
def generateTypeAlias (t : ExtractedType) : String :=
  if t.isExported && !jsStartsWith t.definition "export" then
    "export " ++ t.definition
  else
    t.definition

/-- The `TypeGenerator.generateEnum` (generator.ts:347-354); same logic. -/
def generateEnum (t : ExtractedType) : String :=
  if t.isExported && !jsStartsWith t.definition "export" then
    "export " ++ t.definition
  else
    t.definition

/-- The `TypeGenerator.generateClass` (generator.ts:359-366); same logic. -/
def generateClass (t : ExtractedType) : String :=
  if t.isExported && !jsStartsWith t.definition "export" then
    "export " ++ t.definition
  else
    t.definition

/-- The leading documentation block of `TypeGenerator.generateType`
(generator.ts:223-229). -/
def docBlock (t : ExtractedType) : String :=
  match t.documentation with
  | none => ""
  | some d =>
    "/**\n" ++
    jsJoin "\n" ((jsSplitNewline d).map (fun line => " * " ++ line)) ++
    "\n * @source " ++ t.sourceFile ++ ":" ++ toString t.locLine ++ "\n */\n"

/-- The `TypeGenerator.generateType` (generator.ts:220-248). -/
def generateType (t : ExtractedType) : String :=
  docBlock t ++
  match t.kind with
  | DeclKind.iface => generateInterface t
  | DeclKind.alias => generateTypeAlias t
  | DeclKind.enumDecl => generateEnum t
  | DeclKind.classDecl => generateClass t

/-- The `TypeGenerator.generateMetadata` (generator.ts:378-401).  `nowMs` is the
`Date.now()` sample and `nowIso` the `new Date().toISOString()` rendering
taken while generating. -/
def generateMetadata (c : ExtractionContext) (nowMs : Nat) (nowIso : String) : String :=
  let m := c.metrics
  "/**\n * Generated TypeScript Types for " ++ c.rules.apiId ++ " API\n * \n" ++
  " * EXTRACTION METRICS:\n" ++
  " * - Files parsed: " ++ toString m.filesParsed ++ "\n" ++
  " * - Types extracted: " ++ toString m.typesExtracted ++ "\n" ++
  " * - Transforms applied: " ++ toString m.transformsApplied ++ "\n" ++
  " * - Validations passed: " ++ toString m.validationsPassed ++ "\n" ++
  " * - Validations failed: " ++ toString m.validationsFailed ++ "\n" ++
  " * - Extraction time: " ++ toString (nowMs - m.startTime) ++ "ms\n" ++
  " * - Generated: " ++ nowIso ++ "\n * \n" ++
  " * COMPLIANCE:\n" ++
  " * ✅ Zero \x27any\x27 usage (converted to \x27unknown\x27)\n" ++
  " * ✅ All types maintain strict TypeScript compatibility\n" ++
  " * ✅ Source locations preserved for traceability\n */\n\n" ++
  "/* eslint-disable @typescript-eslint/no-explicit-any */"

/-- One kind bucket of the unified file (generator.ts:104-145). -/
def kindSection (label : String) (ts : List ExtractedType) : String :=
  if ts.length > 0 then
    "// " ++ sep76 ++ "\n" ++
    "// " ++ label ++ " (" ++ toString ts.length ++ " total)\n" ++
    "// " ++ sep76 ++ "\n\n" ++
    String.join (ts.map (fun t => generateType t ++ "\n\n"))
  else ""

/-- The `TypeGenerator.generateUnifiedFile` (generator.ts:85-149): the content
written to the unified artifact (`header` is `config.header`). -/
def generateUnifiedFile (header : Option String) (c : ExtractionContext)
    (nowMs : Nat) (nowIso : String) : String :=
  let g := groupTypesByKind c.types
  (match header with
    | some h => h ++ "\n\n"
    | none => "") ++
  generateMetadata c nowMs nowIso ++ "\n\n" ++
  kindSection "INTERFACES" g.ifaceG ++
  kindSection "TYPE ALIASES" g.aliasG ++
  kindSection "ENUMS" g.enumG ++
  kindSection "CLASSES" g.classG

end TypeExt.TGen


namespace TypeExt.RFC

/-!
`RFCCompliantGenerator` (first half of src/core/rfc-generator.ts).
-/

open TypeExt

/-- The `RFCCompliantGenerator`'s config, restricted to the fields the embedded
logic reads (`outputPath`/`extractionMapPath` fix which file-system slots the
artifacts occupy and are implicit in the `FS` record below). -/
structure RFCGeneratorConfig where
  failOnDrift : Bool
  apiVersion : Option String
deriving DecidableEq, Repr

/-- The contents of the two artifact paths (`outputPath`,
`extractionMapPath`).  `none` means the file does not exist.  The manifest is
kept as its structured value; its JSON serialization is not modelled. -/
structure ExtractionMapValue where
  version : String
  generated : String
  api : String
  apiVersion : Option String
  typesByFile : List (String × List String)
deriving DecidableEq, Repr

/-- See `ExtractionMapValue`. -/
structure FS where
  outputFile : Option String
  mapFile : Option ExtractionMapValue
deriving DecidableEq, Repr

/-- The `groupTypesByKind` (rfc-generator.ts:413-434): same bucketing as the
`TypeGenerator` one but classes are skipped for the contracts file. -/
def groupTypesByKind (types : List (String × ExtractedType)) : KindGroups :=
  let vals := (types.map Prod.snd).filter (fun t => t.kind ≠ DeclKind.classDecl)
  { ifaceG := sortByName (vals.filter (fun t => t.kind = DeclKind.iface))
    aliasG := sortByName (vals.filter (fun t => t.kind = DeclKind.alias))
    enumG := sortByName (vals.filter (fun t => t.kind = DeclKind.enumDecl))
    classG := [] }

/-- The two-space-indented documentation block shared by the contract
renderers (rfc-generator.ts:190-196, 262-268, 290-296). -/
def docBlockContract (t : ExtractedType) : String :=
  match t.documentation with
  | none => ""
  | some d =>
    "  /**\n" ++
    jsJoin "\n" ((jsSplitNewline d).map (fun line => "   * " ++ line)) ++
    "\n   * @source " ++ t.sourceFile ++ ":" ++ toString t.locLine ++ "\n   */\n"

/-- The `generatePropertyForContract` (rfc-generator.ts:228-254). -/
def generatePropertyForContract (p : PropertyInfo) : String :=
  (match p.documentation with
    | some d => "    /** " ++ d ++ " */\n"
    | none => "") ++
  "    " ++ (if p.readonly then "readonly " else "") ++ p.name ++
  (if p.optional then "?" else "") ++ ": " ++ p.type ++ ";\n"

/-- The `generateInterfaceForContract` (rfc-generator.ts:187-223). -/
def generateInterfaceForContract (t : ExtractedType) : String :=
  docBlockContract t ++
  "  export interface " ++ t.name ++
  (if t.typeParameters.length > 0 then
    "<" ++ jsJoin ", " t.typeParameters ++ ">"
  else "") ++
  (if t.extendsList.length > 0 then
    " extends " ++ jsJoin ", " t.extendsList
  else "") ++
  " \x7b\n" ++
  (match t.properties with
    | some ps => String.join (ps.map generatePropertyForContract)
    | none => "") ++
  "  \x7d\n"

/-- The indent-and-export rendering of a stored definition shared by
`generateTypeAliasForContract` and `generateEnumForContract`
(rfc-generator.ts:270-280, 298-308): `'  export ' + lines[0]` then
`'\n  ' + lines[i]` for the remaining lines, then `'\n'`.  Note the `export`
marker is prepended unconditionally. -/
def renderDefinitionForContract (definition : String) : String :=
  "  export " ++ jsJoin "\n  " (jsSplitNewline (jsTrim definition)) ++ "\n"

/-- The `generateTypeAliasForContract` (rfc-generator.ts:259-282). -/
def generateTypeAliasForContract (t : ExtractedType) : String :=
  docBlockContract t ++ renderDefinitionForContract t.definition

/-- The `generateEnumForContract` (rfc-generator.ts:287-310). -/
def generateEnumForContract (t : ExtractedType) : String :=
  docBlockContract t ++ renderDefinitionForContract t.definition

/-- The `this.config.apiVersion || 'unknown'`: JS `||` takes the fallback when
the version is absent or the empty string. -/
def apiVersionOrUnknown : Option String → String
  | none => "unknown"
  | some v => if v = "" then "unknown" else v

/-- The fixed preamble of the contracts file (rfc-generator.ts:91-132), up to
and including the `BrandedUnknown` alias and the blank line after it. -/
def contractsHead (apiId versionStr nowIso : String) (m : ExtractionMetrics)
    (nowMs : Nat) : String :=
  "/**\n * Third-Party Type Contracts\n * \n" ++
  " * This file contains extracted type definitions from third-party APIs\n" ++
  " * in compliance with RFC-2025-TS-A01.\n * \n" ++
  " * DO NOT EDIT MANUALLY - This file is auto-generated\n * \n" ++
  " * API: " ++ apiId ++ "\n" ++
  " * Version: " ++ versionStr ++ "\n" ++
  " * Generated: " ++ nowIso ++ "\n * \n" ++
  " * EXTRACTION METRICS:\n" ++
  " * - Files parsed: " ++ toString m.filesParsed ++ "\n" ++
  " * - Types extracted: " ++ toString m.typesExtracted ++ "\n" ++
  " * - Transforms applied: " ++ toString m.transformsApplied ++ "\n" ++
  " * - Any type violations: " ++ toString m.anyTypeViolations ++ "\n" ++
  " * - Extraction time: " ++ toString (nowMs - m.startTime) ++ "ms\n * \n" ++
  " * COMPLIANCE:\n" ++
  " * ✅ RFC-2025-TS-A01 compliant\n" ++
  " * ✅ Zero \x27any\x27 usage (branded unknowns used instead)\n" ++
  " * ✅ All types maintain strict TypeScript compatibility\n" ++
  " * ✅ Source locations preserved for traceability\n" ++
  " * ✅ Drift detection enabled\n */\n\n" ++
  "/* eslint-disable @typescript-eslint/no-explicit-any */\n" ++
  "/* eslint-disable @typescript-eslint/ban-types */\n\n" ++
  "declare module \x27@" ++ apiId ++ "/contracts\x27 \x7b\n" ++
  "  // " ++ sep76 ++ "\n" ++
  "  // BRANDED UNKNOWN TYPES\n" ++
  "  // " ++ sep76 ++ "\n  \n" ++
  "  /**\n   * RFC-compliant branded unknown type with context\n   */\n" ++
  "  export type BrandedUnknown<TBrand extends string = string, TContext extends string = string> = \n" ++
  "    unknown & \x7b readonly __brand: TBrand; readonly __context: TContext \x7d;\n\n"

/-- One kind bucket of the contracts file (rfc-generator.ts:138-177), with
its two-space-indented separator header. -/
def contractSection (label : String) (ts : List ExtractedType)
    (render : ExtractedType → String) : String :=
  if ts.length > 0 then
    "  // " ++ sep76 ++ "\n" ++
    "  // " ++ label ++ " (" ++ toString ts.length ++ " total)\n" ++
    "  // " ++ sep76 ++ "\n\n" ++
    String.join (ts.map (fun t => render t ++ "\n"))
  else ""

/-- The `generateContractsFile` (rfc-generator.ts:87-182). -/
def generateContractsFile (c : ExtractionContext) (nowMs : Nat) (nowIso : String)
    (apiVersion : Option String) : String :=
  let g := groupTypesByKind c.types
  contractsHead c.rules.apiId (apiVersionOrUnknown apiVersion) nowIso c.metrics nowMs ++
  contractSection "INTERFACES" g.ifaceG generateInterfaceForContract ++
  contractSection "TYPE ALIASES" g.aliasG generateTypeAliasForContract ++
  contractSection "ENUMS" g.enumG generateEnumForContract ++
  "\x7d\n"

/-- Match a literal character sequence, returning the remainder. -/
def matchLit : List Char → List Char → Option (List Char)
  | [], l => some l
  | p :: ps, c :: cs => if c = p then matchLit ps cs else none
  | _ :: _, [] => none

/-- The `\s+`: require at least one whitespace character, consume the maximal
run. -/
def ws1 : List Char → Option (List Char)
  | c :: cs => if isWsChar c then some ((c :: cs).dropWhile isWsChar) else none
  | [] => none

/-- A declaration keyword followed by `\s+`. -/
def kwThenWs (kw : String) (l : List Char) : Option (List Char) :=
  (matchLit kw.data l).bind ws1

/-- One attempt of `/export\s+(interface|type|enum)\s+(\w+)/` at the current
position: on success returns the captured name and the remainder after the
match. -/
def tryExportMatch (l : List Char) : Option (List Char × List Char) :=
  match (matchLit "export".data l).bind ws1 with
  | none => none
  | some r2 =>
    match kwThenWs "interface" r2 <|> kwThenWs "type" r2 <|> kwThenWs "enum" r2 with
    | none => none
    | some r3 =>
      let name := r3.takeWhile isWordChar
      if name.isEmpty then none else some (name, r3.drop name.length)

/-- The `exec` loop of `extractTypeNames`: on a match the scan resumes after
the match, otherwise it advances one character.  Each step consumes at least
one character, so fuel `length + 1` makes the scan run to completion. -/
def scanNamesAux : Nat → List Char → List (List Char)
  | 0, _ => []
  | _ + 1, [] => []
  | fuel + 1, c :: rest =>
    match tryExportMatch (c :: rest) with
    | some (name, rem) => name :: scanNamesAux fuel rem
    | none => scanNamesAux fuel rest

/-- The `extractTypeNames` (rfc-generator.ts:396-408): collect the names matched
by `/export\s+(interface|type|enum)\s+(\w+)/g`, then sort. -/
def extractTypeNames (content : String) : List String :=
  sortStrings ((scanNamesAux (content.data.length + 1) content.data).map String.mk)

/-- The result of `detectDrift`. -/
structure DriftResult where
  hasDrift : Bool
  summary : String
deriving DecidableEq, Repr

/-- The `detectDrift` (rfc-generator.ts:358-391).  `old` is the contents of the
previously committed artifact; `none` models `readFileSync` throwing, which
the method's catch turns into "no drift". -/
def detectDrift (c : ExtractionContext) (old : Option String) (nowMs : Nat)
    (nowIso : String) (apiVersion : Option String) : DriftResult :=
  match old with
  | none => { hasDrift := false, summary := "No existing file to compare" }
  | some existingContent =>
    let newContent := generateContractsFile c nowMs nowIso apiVersion
    if existingContent = newContent then
      { hasDrift := false, summary := "No drift detected" }
    else
      let existingTypes := extractTypeNames existingContent
      let newTypes := extractTypeNames newContent
      let added := newTypes.filter (fun t => !existingTypes.contains t)
      let removed := existingTypes.filter (fun t => !newTypes.contains t)
      let summary :=
        (if added.length > 0 then
          "Added types: " ++ jsJoin ", " added ++ "\n"
        else "") ++
        (if removed.length > 0 then
          "Removed types: " ++ jsJoin ", " removed ++ "\n"
        else "")
      { hasDrift := added.length > 0 || removed.length > 0
        summary := if summary = "" then "Types modified but names unchanged" else summary }

/-- Append `name` to the bucket of `file` in the manifest's `types` record
(first-seen file order, JS object key insertion order). -/
def addToFile (acc : List (String × List String)) (file name : String) :
    List (String × List String) :=
  if acc.any (fun p => p.1 = file) then
    acc.map (fun p => if p.1 = file then (p.1, p.2 ++ [name]) else p)
  else
    acc ++ [(file, [name])]

/-- The `generateExtractionMap` (rfc-generator.ts:320-348): the manifest value —
types grouped by source file in iteration order, each bucket sorted. -/
def extractionMapValue (c : ExtractionContext) (nowIso : String)
    (apiVersion : Option String) : ExtractionMapValue :=
  { version := "2.0.0"
    generated := nowIso
    api := c.rules.apiId
    apiVersion := apiVersion
    typesByFile :=
      (c.types.foldl (fun acc p => addToFile acc p.2.sourceFile p.1) []).map
        (fun p => (p.1, sortStrings p.2)) }

/-- The `RFCCompliantGenerator.generate` (rfc-generator.ts:59-78): `mkdirSync`
only creates directories; when fail-on-drift is enabled and the artifact
exists, drift aborts with a throw — the error carries the file system as it
stood, i.e. untouched.  Otherwise the contracts file and then the manifest
are written. -/
def generate (cfg : RFCGeneratorConfig) (c : ExtractionContext) (nowMs : Nat)
    (nowIso : String) (fs : FS) : Except (String × FS) FS :=
  let written : FS :=
    { outputFile := some (generateContractsFile c nowMs nowIso cfg.apiVersion)
      mapFile := some (extractionMapValue c nowIso cfg.apiVersion) }
  if cfg.failOnDrift && fs.outputFile.isSome then
    let drift := detectDrift c fs.outputFile nowMs nowIso cfg.apiVersion
    if drift.hasDrift then
      Except.error ("Type drift detected:\n" ++ drift.summary, fs)
    else
      Except.ok written
  else
    Except.ok written

end TypeExt.RFC

namespace TypeExt.V1

/-!
The v1 compiler-API `BaseTypeExtractor` (src/core/extractor.ts): only the
property-type rendering is embedded — `getPropertyType`, `typeNodeToString`
and `typeLiteralToString` (extractor.ts:250-311).
-/

open TypeExt

mutual

/-- A `ts.TypeNode` as consumed by `typeNodeToString`: the keyword kinds it
switches on, type literals, arrays, unions, and the fallback carrying the
node's source text. -/
inductive TsTypeNode where
  | stringKw
  | numberKw
  | booleanKw
  | anyKw
  | unknownKw
  | typeLiteral (members : TsMembers)
  | arrayType (elementType : TsTypeNode)
  | unionType (types : TsTypeList)
  | other (text : String)

/-- A list of type nodes (union members). -/
inductive TsTypeList where
  | nil
  | cons (head : TsTypeNode) (tail : TsTypeList)

/-- The property signatures of a type literal: name, `?` token, optional
type node. -/
inductive TsMembers where
  | nil
  | cons (name : String) (questionTok : Bool) (typeNode : TsTypeOpt) (tail : TsMembers)

/-- An optional type node (`member.type` may be absent). -/
inductive TsTypeOpt where
  | noneT
  | someT (t : TsTypeNode)

end

mutual

/-- The `typeNodeToString` (extractor.ts:268-293): keywords pass through,
`any` becomes `unknown`, type literals/arrays/unions recurse, anything else
falls back to its source text. -/
def typeNodeToString : TsTypeNode → String
  | TsTypeNode.stringKw => "string"
  | TsTypeNode.numberKw => "number"
  | TsTypeNode.booleanKw => "boolean"
  | TsTypeNode.anyKw => "unknown"
  | TsTypeNode.unknownKw => "unknown"
  | TsTypeNode.typeLiteral ms => typeLiteralToString ms
  | TsTypeNode.arrayType e => typeNodeToString e ++ "[]"
  | TsTypeNode.unionType ts => jsJoin " | " (typeListToStrings ts)
  | TsTypeNode.other text => text

/-- The recursive renders of a union's members. -/
def typeListToStrings : TsTypeList → List String
  | TsTypeList.nil => []
  | TsTypeList.cons h t => typeNodeToString h :: typeListToStrings t

/-- The `typeLiteralToString` (extractor.ts:298-311). -/
def typeLiteralToString (ms : TsMembers) : String :=
  "\x7b " ++ jsJoin "; " (membersToStrings ms) ++ " \x7d"

/-- The `${name}${optional}: ${type}` renders of a type literal's members. -/
def membersToStrings : TsMembers → List String
  | TsMembers.nil => []
  | TsMembers.cons name q tn tail =>
    (name ++ (if q then "?" else "") ++ ": " ++ typeOptToString tn) :: membersToStrings tail

/-- A member's type render, `'unknown'` when the annotation is absent
(extractor.ts:305). -/
def typeOptToString : TsTypeOpt → String
  | TsTypeOpt.noneT => "unknown"
  | TsTypeOpt.someT t => typeNodeToString t

end

/-- A `ts.PropertySignature` as read by `getPropertyType`: only its optional
type node matters here. -/
structure MemberSig where
  name : String
  typeNode : TsTypeOpt

/-- The `getPropertyType` (extractor.ts:250-255): a property with no type
annotation renders as the plain string `'unknown'`. -/
def getPropertyType (m : MemberSig) : String :=
  match m.typeNode with
  | TsTypeOpt.noneT => "unknown"
  | TsTypeOpt.someT t => typeNodeToString t

end TypeExt.V1

namespace TypeExt

/-!
Shared sample data and spec-side definitions used by the theorems below.
-/

/-- A minimal rule set: the `guesty` API with no exclusions. -/
def sampleRules : ExtractionRules :=
  { apiId := "guesty", excludeTypes := none }

/-- The fresh context of a run started at time 0 under `sampleRules`. -/
def emptyCtx : ExtractionContext :=
  Morph.initialContext sampleRules 0

/-- The carried state of a modelled `throw`, if any. -/
def errPart {α β : Type} : Except α β → Option α
  | Except.error a => some a
  | Except.ok _ => none

/-- A sample type alias whose stored definition already carries the export
marker. -/
def aliasAlreadyExported : ExtractedType :=
  { name := "Foo"
    kind := DeclKind.alias
    definition := "export type Foo = string;"
    sourceFile := "/api/a.ts"
    locLine := 1
    locColumn := 0
    isExported := true
    documentation := none
    properties := none
    typeParameters := []
    extendsList := [] }

/-- A sample type alias whose stored definition lacks the export marker. -/
def aliasNotExportMarked : ExtractedType :=
  { aliasAlreadyExported with definition := "type Foo = string;" }

/-- Modelled from the spec's words, for comparison: a placeholder whose
fine-grained origin tag has the form `<owningDeclaration>.<propertyName>`
("a coarse category (e.g. \"property\") and a fine-grained origin
(`<owningDeclaration>.<propertyName>`)"). -/
def specOriginPlaceholder (owningDeclaration propertyName : String) : String :=
  Morph.createBrandedUnknown "property" (owningDeclaration ++ "." ++ propertyName)

/-- An interface `User` with one property `id` carrying no type annotation. -/
def userDecl : Morph.Decl :=
  { name := "User"
    kind := DeclKind.iface
    fullText := "interface User \x7b\n  id;\n\x7d"
    startLine := 1
    startLinePos := 0
    isExported := true
    jsDoc := none
    props := [{ name := "id", typeNodeText := none, hasQuestionToken := false,
                isReadonlyProp := false, jsDoc := none }]
    typeParams := []
    extendsTexts := [] }

/-- A source file declaring an interface with an `any`-typed property. -/
def badDecl : Morph.Decl :=
  { name := "BadType"
    kind := DeclKind.iface
    fullText := "interface BadType \x7b id: any; \x7d"
    startLine := 1
    startLinePos := 0
    isExported := true
    jsDoc := none
    props := [{ name := "id", typeNodeText := some "any", hasQuestionToken := false,
                isReadonlyProp := false, jsDoc := none }]
    typeParams := []
    extendsTexts := [] }

/-- See `badDecl`. -/
def badFile : Morph.SrcFile :=
  { path := "/api/bad.ts", decls := [badDecl] }

/-- The state carried by the throw of the pipeline run on `badFile`. -/
def badRunResult : ExtractionContext × String :=
  match Morph.runPipeline (fun _ => false) Except.ok Except.ok [badFile]
      ({ Morph.initialContext sampleRules 0 with
          sourceFiles := [badFile].map Morph.SrcFile.path }) with
  | Except.error e => e
  | Except.ok c => (c, "")

/-- An interface whose stored definition contains a whole-word `any`. -/
def etAny (nm : String) : ExtractedType :=
  { name := nm
    kind := DeclKind.iface
    definition := "x: any"
    sourceFile := "/api/two.ts"
    locLine := 1
    locColumn := 0
    isExported := true
    documentation := none
    properties := none
    typeParameters := []
    extendsList := [] }

/-- A context holding two violating types `A` and `B`. -/
def twoViolCtx : ExtractionContext :=
  { emptyCtx with types := [("A", etAny "A"), ("B", etAny "B")] }

/-- A previously committed contracts artifact declaring the preamble alias
and one interface `B` that the current (empty) context no longer produces. -/
def oldArtifact : String :=
  "export type BrandedUnknown = 0;\nexport interface B \x7b\x7d"

/-- The generator config used in the drift-abort witness. -/
def failCfg : RFC.RFCGeneratorConfig :=
  { failOnDrift := true, apiVersion := none }

/-- A file system holding the previously committed artifact and no
manifest. -/
def fsWithOld : RFC.FS :=
  { outputFile := some oldArtifact, mapFile := none }

/-- Whether an option holds a word character (an absent neighbour counts as
a non-word character, i.e. a boundary). -/
def wordCharAtOpt : Option Char → Bool
  | none => false
  | some c => isWordChar c

/-- A whole-word occurrence of the token `any` starting at index `j`: the
three characters are present, the position before `j` (the scanner's `prev`
when `j = 0`) is not a word character, and neither is the character after
the token. -/
def wholeWordAnyAt (prev : Option Char) (l : List Char) (j : Nat) : Bool :=
  match l.drop j with
  | [] => false
  | c :: rest =>
    c == 'a' && rest.take 2 == ['n', 'y'] &&
    (match j with
      | 0 => Morph.boundaryBefore prev
      | k + 1 => !wordCharAtOpt l[k]?) &&
    Morph.boundaryAfter (rest.drop 2)

/-- The invariant satisfied by each per-declaration extraction step: rules,
errors, source files and the violation counter are untouched; the
`typesExtracted` metric gains 1 exactly when the declaration is not
excluded; and every map entry afterwards was either there before or stores
this declaration's raw text. -/
def ExtStepOk (g : ExtractionContext → Morph.Decl → ExtractionContext) : Prop :=
  ∀ (c : ExtractionContext) (d : Morph.Decl),
    (g c d).rules = c.rules ∧
    (g c d).errors = c.errors ∧
    (g c d).sourceFiles = c.sourceFiles ∧
    (g c d).metrics.anyTypeViolations = c.metrics.anyTypeViolations ∧
    (g c d).metrics.typesExtracted =
      c.metrics.typesExtracted + (if isExcluded c.rules d.name then 0 else 1) ∧
    (∀ p ∈ (g c d).types, p ∈ c.types ∨ p.2.definition = d.fullText)

/-- Relation between the context before and after an extraction phase:
rules, errors, source files and the violation counter unchanged,
`typesExtracted` grown by `n`, and every new map entry's definition drawn
from `texts`. -/
def CtxInv (c c2 : ExtractionContext) (n : Nat) (texts : List String) : Prop :=
  c2.rules = c.rules ∧
  c2.errors = c.errors ∧
  c2.sourceFiles = c.sourceFiles ∧
  c2.metrics.anyTypeViolations = c.metrics.anyTypeViolations ∧
  c2.metrics.typesExtracted = c.metrics.typesExtracted + n ∧
  (∀ p ∈ c2.types, p ∈ c.types ∨ p.2.definition ∈ texts)

/-- Rules excluding the declaration named `Skip`. -/
def cleanRules : ExtractionRules :=
  { apiId := "guesty", excludeTypes := some ["Skip"] }

/-- A source file with three recognized, fully annotated, clean declarations
plus one declaration (`Skip`) that the rules exclude. -/
def cleanFile : Morph.SrcFile :=
  { path := "/api/clean.ts"
    decls :=
      [{ name := "Good"
         kind := DeclKind.iface
         fullText := "interface Good \x7b id: string; \x7d"
         startLine := 1
         startLinePos := 0
         isExported := true
         jsDoc := none
         props := [{ name := "id", typeNodeText := some "string",
                     hasQuestionToken := false, isReadonlyProp := false, jsDoc := none }]
         typeParams := []
         extendsTexts := [] },
       { name := "Skip"
         kind := DeclKind.iface
         fullText := "interface Skip \x7b\x7d"
         startLine := 3
         startLinePos := 0
         isExported := true
         jsDoc := none
         props := []
         typeParams := []
         extendsTexts := [] },
       { name := "Status"
         kind := DeclKind.alias
         fullText := "type Status = \x27active\x27 | \x27inactive\x27;"
         startLine := 5
         startLinePos := 0
         isExported := true
         jsDoc := none
         props := []
         typeParams := []
         extendsTexts := [] },
       { name := "Color"
         kind := DeclKind.enumDecl
         fullText := "enum Color \x7b Red \x7d"
         startLine := 7
         startLinePos := 0
         isExported := true
         jsDoc := none
         props := []
         typeParams := []
         extendsTexts := [] }] }

end TypeExt

namespace TypeExt

/-!
Shared sample data and helper lemmas for the theorems below.
-/

theorem splitLinesChars_cons_ne (c : Char) (t : List Char) (hc : c ≠ '\n') :
    splitLinesChars (c :: t) =
      match splitLinesChars t with
      | h :: t' => (c :: h) :: t'
      | [] => [[c]] := by
  rw [splitLinesChars.eq_def]
  simp [hc]

theorem splitLinesChars_ne_nil (l : List Char) : splitLinesChars l ≠ [] := by
  induction l with
  | nil => simp [splitLinesChars]
  | cons c t ih =>
    by_cases hc : c = '\n'
    · subst hc
      simp [splitLinesChars]
    · rw [splitLinesChars_cons_ne c t hc]
      split <;> simp

theorem isPrefixOf_eq_true_iff (l m : List Char) : l.isPrefixOf m = true ↔ l <+: m :=
  List.isPrefixOf_iff_prefix

theorem isPrefixOf_append_right {p a : List Char} (b : List Char)
    (h : p.isPrefixOf a = true) : p.isPrefixOf (a ++ b) = true := by
  rw [isPrefixOf_eq_true_iff] at h ⊢
  exact h.trans (List.prefix_append a b)

theorem splitLinesChars_head_lead :
    ∀ (p l : List Char), '\n' ∉ p → p.isPrefixOf l = true →
      ∃ h t, splitLinesChars l = h :: t ∧ p.isPrefixOf h = true := by
  intro p
  induction p with
  | nil =>
    intro l _ _
    match hs : splitLinesChars l, splitLinesChars_ne_nil l with
    | h :: t, _ => exact ⟨h, t, rfl, by simp [List.isPrefixOf]⟩
  | cons c ps ih =>
    intro l hn hpre
    match l with
    | [] => simp [List.isPrefixOf] at hpre
    | a :: l' =>
      simp only [List.isPrefixOf, Bool.and_eq_true, beq_iff_eq] at hpre
      obtain ⟨rfl, hps⟩ := hpre
      have hc : c ≠ '\n' := fun h => hn (h ▸ List.mem_cons_self c ps)
      obtain ⟨h, t, hsplit, hph⟩ := ih l' (fun hm => hn (List.mem_cons_of_mem c hm)) hps
      refine ⟨c :: h, t, ?_, ?_⟩
      · rw [splitLinesChars_cons_ne c l' hc, hsplit]
      · simp [List.isPrefixOf, hph]

theorem jsStartsWith_append_left {a : String} (pre b : String)
    (h : jsStartsWith a pre = true) : jsStartsWith (a ++ b) pre = true := by
  unfold jsStartsWith at h ⊢
  rw [String.data_append]
  exact isPrefixOf_append_right _ h

theorem jsStartsWith_jsJoin_head {a : String} (pre sep : String) (rest : List String)
    (h : jsStartsWith a pre = true) : jsStartsWith (jsJoin sep (a :: rest)) pre = true := by
  match rest with
  | [] => exact h
  | b :: r =>
    show jsStartsWith (a ++ sep ++ jsJoin sep (b :: r)) pre = true
    exact jsStartsWith_append_left _ _ (jsStartsWith_append_left _ _ h)

theorem jsStartsWith_cancel_left (s p x : String)
    (h : jsStartsWith x p = true) : jsStartsWith (s ++ x) (s ++ p) = true := by
  unfold jsStartsWith at h ⊢
  rw [String.data_append, String.data_append, isPrefixOf_eq_true_iff] at *
  rw [List.prefix_append_right_inj]
  exact h

end TypeExt

namespace TypeExt

/-!
## Claim C6 — unified-artifact generation and the clock
-/

set_option maxRecDepth 40000 in
/-- C6 counterexample: generation is not a function of the context alone —
the same unchanged context rendered at `Date.now() = 0` and at
`Date.now() = 1` produces different unified-artifact text (the metadata
preamble embeds the elapsed time and a timestamp). -/
theorem unifiedFile_differs_across_clock :
    TGen.generateUnifiedFile none emptyCtx 0 "2026-01-01T00:00:00.000Z" ≠
      TGen.generateUnifiedFile none emptyCtx 1 "2026-01-01T00:00:00.000Z" := by
  decide

/-- C6 (amended): unified-artifact generation is a deterministic function of
the context together with the clock samples taken during generation
(`Date.now()` and `new Date().toISOString()`): two generations from the same
unchanged context that observe equal clock samples produce byte-identical
text. -/
theorem unifiedFile_deterministic_given_clock (header : Option String)
    (c : ExtractionContext) (n1 n2 : Nat) (i1 i2 : String)
    (hn : n1 = n2) (hi : i1 = i2) :
    TGen.generateUnifiedFile header c n1 i1 = TGen.generateUnifiedFile header c n2 i2 := by
  subst hn
  subst hi
  rfl

/-- C6 witness: the amended determinism theorem applied at a concrete
context and concrete equal clock samples. -/
theorem unifiedFile_deterministic_given_clock_witness :
    TGen.generateUnifiedFile none emptyCtx 5 "2026-01-01T00:00:00.000Z" =
      TGen.generateUnifiedFile none emptyCtx 5 "2026-01-01T00:00:00.000Z" :=
  unifiedFile_deterministic_given_clock none emptyCtx 5 5
    "2026-01-01T00:00:00.000Z" "2026-01-01T00:00:00.000Z" rfl rfl

/-!
## Claim C7 — export-marker policy of the renderers
-/

/-- C7 counterexample: in the strict contracts artifact the export marker IS
duplicated — a stored definition already starting with `export` is rendered
with `export export`. -/
theorem contract_duplicates_export_marker :
    RFC.generateTypeAliasForContract aliasAlreadyExported =
      "  export export type Foo = string;\n" := by
  decide

/-- C7 (amended): in the general-purpose artifact, the export marker is
prepended exactly when the type is exported and its stored text does not
already start with `export` (so there it is never duplicated, and a
non-exported type never gains one); in the strict contracts artifact the
marker is prepended unconditionally to the trimmed definition, so a stored
definition already starting with `export` is rendered with a doubled
marker. -/
theorem exportMarker_policy :
    (∀ t : ExtractedType, jsStartsWith t.definition "export" = true →
      TGen.generateTypeAlias t = t.definition ∧
      TGen.generateEnum t = t.definition ∧
      TGen.generateClass t = t.definition) ∧
    (∀ t : ExtractedType, t.isExported = true → jsStartsWith t.definition "export" = false →
      TGen.generateTypeAlias t = "export " ++ t.definition ∧
      TGen.generateEnum t = "export " ++ t.definition ∧
      TGen.generateClass t = "export " ++ t.definition) ∧
    (∀ t : ExtractedType, t.isExported = false →
      TGen.generateTypeAlias t = t.definition ∧
      TGen.generateEnum t = t.definition ∧
      TGen.generateClass t = t.definition) ∧
    (∀ t : ExtractedType, t.documentation = none →
      jsStartsWith (jsTrim t.definition) "export" = true →
      jsStartsWith (RFC.generateTypeAliasForContract t) "  export export" = true ∧
      jsStartsWith (RFC.generateEnumForContract t) "  export export" = true) := by
  refine ⟨?_, ?_, ?_, ?_⟩
  · intro t h
    simp [TGen.generateTypeAlias, TGen.generateEnum, TGen.generateClass, h]
  · intro t he h
    simp [TGen.generateTypeAlias, TGen.generateEnum, TGen.generateClass, he, h]
  · intro t he
    simp [TGen.generateTypeAlias, TGen.generateEnum, TGen.generateClass, he]
  · intro t hd h
    have key : jsStartsWith (RFC.renderDefinitionForContract t.definition)
        "  export export" = true := by
      unfold RFC.renderDefinitionForContract
      obtain ⟨hd1, tl, hsplit, hpre⟩ :=
        splitLinesChars_head_lead "export".data (jsTrim t.definition).data
          (by decide) h
      have hjoin : jsStartsWith
          (jsJoin "\n  " (jsSplitNewline (jsTrim t.definition))) "export" = true := by
        unfold jsSplitNewline
        rw [hsplit]
        exact jsStartsWith_jsJoin_head _ _ _ hpre
      have : jsStartsWith
          ("  export " ++ jsJoin "\n  " (jsSplitNewline (jsTrim t.definition)))
          ("  export " ++ "export") = true :=
        jsStartsWith_cancel_left _ _ _ hjoin
      exact jsStartsWith_append_left _ _ this
    constructor
    · unfold RFC.generateTypeAliasForContract RFC.docBlockContract
      rw [hd]
      simpa using key
    · unfold RFC.generateEnumForContract RFC.docBlockContract
      rw [hd]
      simpa using key

/-- C7 witness: the marker policy applied at concrete inputs — an
already-marked definition is left alone in the general artifact, an unmarked
exported one gains a single marker, and the contracts renderer doubles an
existing marker. -/
theorem exportMarker_policy_witness :
    TGen.generateTypeAlias aliasAlreadyExported = aliasAlreadyExported.definition ∧
    TGen.generateTypeAlias aliasNotExportMarked = "export " ++ aliasNotExportMarked.definition ∧
    jsStartsWith (RFC.generateTypeAliasForContract aliasAlreadyExported)
      "  export export" = true :=
  ⟨(exportMarker_policy.1 aliasAlreadyExported (by decide)).1,
   (exportMarker_policy.2.1 aliasNotExportMarked (by decide) (by decide)).1,
   (exportMarker_policy.2.2.2 aliasAlreadyExported (by decide) (by decide)).1⟩

end TypeExt

namespace TypeExt

/-!
## Claim C5 — placeholder type for unannotated properties
-/

/-- C5 counterexample: extracting interface `User` with unannotated property
`id` brands the property with origin tag `id` alone — not the
`<owningDeclaration>.<propertyName>` form (`User.id`) the claim requires. -/
theorem property_placeholder_lacks_owner_origin :
    ((Morph.extractInterface "/api/a.ts" emptyCtx userDecl).types.head?.map
        (fun p => (p.2.properties.getD []).map PropertyInfo.type)) =
      some [Morph.createBrandedUnknown "property" "id"] ∧
    Morph.createBrandedUnknown "property" "id" ≠ specOriginPlaceholder "User" "id" := by
  decide

theorem createBrandedUnknown_length (c d : String) :
    (Morph.createBrandedUnknown c d).length = 58 + c.length + d.length := by
  unfold Morph.createBrandedUnknown
  simp only [String.length_append]
  have h1 : ("unknown & \x7b readonly __brand: \x27" : String).length = 31 := rfl
  have h2 : ("\x27; readonly __context: \x27" : String).length = 24 := rfl
  have h3 : ("\x27 \x7d" : String).length = 3 := rfl
  rw [h1, h2, h3]
  omega

/-- C5 (amended): in the ts-morph extractor, an interface property lacking a
type annotation receives the branded placeholder
`unknown & { __brand: 'property'; __context: '<propertyName>' }` — tagged
with the coarse category `property` and the property name alone, with no
owning-declaration qualifier — which is never blank, never `any`, and never
bare `unknown`; in the v1 compiler-API extractor such a property instead
receives the plain string `unknown`. -/
theorem missingAnnotation_placeholder :
    (∀ (parentKindName : String) (p : Morph.PropSig), p.typeNodeText = none →
      Morph.getPropertyTypeString parentKindName p =
        Morph.createBrandedUnknown "property" p.name) ∧
    (∀ c d : String,
      Morph.createBrandedUnknown c d ≠ "" ∧
      Morph.createBrandedUnknown c d ≠ "any" ∧
      Morph.createBrandedUnknown c d ≠ "unknown") ∧
    (∀ m : V1.MemberSig, m.typeNode = V1.TsTypeOpt.noneT → V1.getPropertyType m = "unknown") := by
  refine ⟨?_, ?_, ?_⟩
  · intro pk p h
    unfold Morph.getPropertyTypeString
    rw [h]
  · intro c d
    refine ⟨?_, ?_, ?_⟩ <;>
      · intro h
        have hlen := congrArg String.length h
        rw [createBrandedUnknown_length] at hlen
        simp only [show ("" : String).length = 0 from rfl,
          show ("any" : String).length = 3 from rfl,
          show ("unknown" : String).length = 7 from rfl] at hlen
        omega
  · intro m h
    unfold V1.getPropertyType
    rw [h]

/-- C5 witness: the amended placeholder behaviour at a concrete unannotated
property in each extractor. -/
theorem missingAnnotation_placeholder_witness :
    Morph.getPropertyTypeString "InterfaceDeclaration"
      { name := "id", typeNodeText := none, hasQuestionToken := false,
        isReadonlyProp := false, jsDoc := none } =
      Morph.createBrandedUnknown "property" "id" ∧
    Morph.createBrandedUnknown "property" "id" ≠ "unknown" ∧
    V1.getPropertyType { name := "id", typeNode := V1.TsTypeOpt.noneT } = "unknown" :=
  ⟨missingAnnotation_placeholder.1 "InterfaceDeclaration" _ rfl,
   (missingAnnotation_placeholder.2.1 "property" "id").2.2,
   missingAnnotation_placeholder.2.2 _ rfl⟩

end TypeExt

namespace TypeExt

/-!
## Claims C1 and C10 — the fate of the forbidden-type abort
-/

set_option maxRecDepth 40000 in
/-- C1: evaluating `extract` at a file whose extracted interface definition
contains the forbidden token.  `detectAnyTypes` throws, but `extract`'s own
catch converts the throw into a final `Extraction failed: …` error entry and
returns the context normally — the caller observes a normal return carrying
the violation error and the summary entry, not a raised error. -/
theorem extract_swallows_any_violation :
    (Morph.extract (fun _ => false) Except.ok Except.ok sampleRules 0 [badFile]).errors.map
        ExtractionError.message =
      [Morph.anyViolationMessage "BadType" "rface BadType \x7b id: any; \x7d",
       "Extraction failed: Extraction failed: 1 \x27any\x27 type violations found. See errors for details."] ∧
    (Morph.extract (fun _ => false) Except.ok Except.ok sampleRules 0 [badFile]).metrics.anyTypeViolations = 1 := by
  decide

/-- C10: `extract` is total at its public boundary — whenever the inner
pipeline (parsing, the adapter's transformation and validation stages, or
forbidden-type detection) aborts with a throw carrying the context as
mutated so far, `extract` catches it and returns that context normally, with
exactly one error entry appended whose message is the thrown message
prefixed by `Extraction failed: `. -/
theorem extract_total_catches (pred : Morph.Decl → Bool)
    (tS vS : ExtractionContext → Except (ExtractionContext × String) ExtractionContext)
    (rules : ExtractionRules) (startTime : Nat) (files : List Morph.SrcFile)
    (c : ExtractionContext) (msg : String)
    (h : Morph.runPipeline pred tS vS files
        ({ Morph.initialContext rules startTime with
            sourceFiles := files.map Morph.SrcFile.path }) = Except.error (c, msg)) :
    Morph.extract pred tS vS rules startTime files =
      { c with errors := c.errors ++
          [{ file := "", message := "Extraction failed: " ++ msg,
             type := none, line := none, column := none }] } := by
  simp only [Morph.extract]
  rw [h]
  rfl

set_option maxRecDepth 40000 in
/-- C10 witness: the catch behaviour at the concrete aborting input. -/
theorem extract_total_catches_witness :
    Morph.extract (fun _ => false) Except.ok Except.ok sampleRules 0 [badFile] =
      { badRunResult.1 with errors := badRunResult.1.errors ++
          [{ file := "", message := "Extraction failed: " ++ badRunResult.2,
             type := none, line := none, column := none }] } :=
  extract_total_catches (fun _ => false) Except.ok Except.ok sampleRules 0 [badFile]
    badRunResult.1 badRunResult.2 rfl

end TypeExt

namespace TypeExt

/-!
## Claim C4 — per-type bookkeeping of the forbidden-type guard
-/

theorem foldAddError_errors (f n : String) (ty : Option String) (occ : List String)
    (c : ExtractionContext) :
    occ.foldl (fun acc snippet =>
        Morph.addError acc f (Morph.anyViolationMessage n snippet) ty none none) c =
      { c with errors := c.errors ++ occ.map (fun s =>
          { file := f, message := Morph.anyViolationMessage n s,
            type := ty, line := none, column := none }) } := by
  induction occ generalizing c with
  | nil => simp
  | cons s rest ih =>
    simp only [List.foldl_cons, List.map_cons]
    rw [ih]
    simp [Morph.addError]

theorem detectAnyTypesGo_skip_ok (c : ExtractionContext)
    (pre rest : List (String × ExtractedType))
    (h : ∀ p ∈ pre, Morph.findAnyInDefinition p.2.definition = []) :
    Morph.detectAnyTypesGo c (pre ++ rest) = Morph.detectAnyTypesGo c rest := by
  induction pre with
  | nil => rfl
  | cons p ps ih =>
    obtain ⟨n, et⟩ := p
    have hp : Morph.findAnyInDefinition et.definition = [] :=
      h (n, et) (List.mem_cons_self _ _)
    simp only [List.cons_append]
    rw [Morph.detectAnyTypesGo]
    simp only [hp, List.isEmpty_nil, if_true]
    exact ih (fun q hq => h q (List.mem_cons_of_mem _ hq))

/-- C4 (amended): the guard processes only the first violating type in map
order.  If every entry before `(name, et)` is clean and `et`'s definition has
occurrences, the guard increments `anyTypeViolations` by exactly 1 (once,
for that type), appends one error per occurrence — each carrying the
`substring(max(0, i-20), min(length, i+20))` context snippet around the
occurrence — and then throws, so any later violating types are not
processed. -/
theorem detectAnyTypes_first_violation (c : ExtractionContext)
    (pre post : List (String × ExtractedType)) (name : String) (et : ExtractedType)
    (hsplit : c.types = pre ++ (name, et) :: post)
    (hpre : ∀ p ∈ pre, Morph.findAnyInDefinition p.2.definition = [])
    (hocc : Morph.findAnyInDefinition et.definition ≠ []) :
    Morph.detectAnyTypes c = Except.error
      ({ c with
          metrics := { c.metrics with
            anyTypeViolations := c.metrics.anyTypeViolations + 1 }
          errors := c.errors ++ (Morph.findAnyInDefinition et.definition).map
            (Morph.anyViolationError et.sourceFile name) },
        Morph.anyViolationThrowMessage
          (Morph.findAnyInDefinition et.definition).length) := by
  unfold Morph.detectAnyTypes
  rw [hsplit, detectAnyTypesGo_skip_ok c pre ((name, et) :: post) hpre]
  rw [Morph.detectAnyTypesGo]
  simp only [List.isEmpty_eq_true, hocc, if_false]
  rw [foldAddError_errors]
  simp [Morph.anyViolationError, hsplit]

/-- C4 counterexample: with two violating types in the context, the guard
reports only the first — `anyTypeViolations` ends at 1, and the only error
recorded names type `A`, although type `B`'s definition also has an
occurrence.  The claimed behaviour (`holds for every violating type`) would
require a count of 2 and errors for both. -/
theorem detectAnyTypes_stops_at_first :
    (errPart (Morph.detectAnyTypes twoViolCtx)).map
        (fun e => (e.1.metrics.anyTypeViolations, e.1.errors.map ExtractionError.message)) =
      some (1, [Morph.anyViolationMessage "A" "x: any"]) ∧
    Morph.findAnyInDefinition (etAny "B").definition ≠ [] := by
  decide

/-- C4 witness: the first-violation behaviour at the concrete two-violation
context. -/
theorem detectAnyTypes_first_violation_witness :
    Morph.detectAnyTypes twoViolCtx = Except.error
      ({ twoViolCtx with
          metrics := { twoViolCtx.metrics with
            anyTypeViolations := twoViolCtx.metrics.anyTypeViolations + 1 }
          errors := twoViolCtx.errors ++ (Morph.findAnyInDefinition (etAny "A").definition).map
            (Morph.anyViolationError (etAny "A").sourceFile "A") },
        Morph.anyViolationThrowMessage
          (Morph.findAnyInDefinition (etAny "A").definition).length) :=
  detectAnyTypes_first_violation twoViolCtx [] [("B", etAny "B")] "A" (etAny "A")
    rfl (by simp) (by decide)

end TypeExt

namespace TypeExt

/-!
## Claims C2 and C3 — drift detection and the fail-on-drift abort
-/

theorem not_contains_iff (m : List String) (n : String) :
    ((!m.contains n) = true) ↔ n ∉ m := by
  cases h : m.contains n
  · simp only [Bool.not_false, true_iff]
    intro hm
    have hc : m.contains n = true := List.elem_eq_true_of_mem hm
    exact Bool.noConfusion (hc.symm.trans h)
  · constructor
    · intro habs
      simp at habs
    · intro hnm
      exact absurd (List.elem_iff.mp h) hnm

theorem string_empty_append (s : String) : "" ++ s = s := by
  cases s
  rfl

theorem filter_not_contains_ne_nil_iff (l m : List String) :
    (l.filter (fun t => !m.contains t) ≠ [] ↔ ∃ n, n ∈ l ∧ n ∉ m) := by
  constructor
  · intro h
    match hf : l.filter (fun t => !m.contains t), h with
    | n :: _, _ =>
      have hmem : n ∈ l.filter (fun t => !m.contains t) := by
        rw [hf]
        exact List.mem_cons_self _ _
      rw [List.mem_filter] at hmem
      exact ⟨n, hmem.1, (not_contains_iff m n).mp hmem.2⟩
  · rintro ⟨n, hn, hm⟩ hf
    have hmem : n ∈ l.filter (fun t => !m.contains t) :=
      List.mem_filter.mpr ⟨hn, (not_contains_iff m n).mpr hm⟩
    rw [hf] at hmem
    exact absurd hmem (List.not_mem_nil n)

theorem removedSummary_ne_empty (j : String) :
    ("Removed types: " ++ j ++ "\n") ≠ "" := by
  intro h
  have hlen := congrArg String.length h
  simp only [String.length_append,
    show ("Removed types: " : String).length = 15 from rfl,
    show ("\n" : String).length = 1 from rfl,
    show ("" : String).length = 0 from rfl] at hlen
  omega

/-- C3: drift semantics of `detectDrift` — no prior artifact means no drift;
byte-identical text means no drift; otherwise drift holds exactly when the
symmetric difference of the exported-declaration name sets (scanned by the
declaration-header pattern from old and new text) is non-empty; and in a
pure-removal situation (nothing added, something removed) the summary
reports exactly the removed names under `Removed types` with no `Added`
line. -/
theorem detectDrift_name_set_semantics (c : ExtractionContext) (nowMs : Nat)
    (nowIso : String) (apiVersion : Option String) :
    (RFC.detectDrift c none nowMs nowIso apiVersion).hasDrift = false ∧
    (RFC.detectDrift c (some (RFC.generateContractsFile c nowMs nowIso apiVersion))
        nowMs nowIso apiVersion).hasDrift = false ∧
    (∀ old : String, old ≠ RFC.generateContractsFile c nowMs nowIso apiVersion →
      ((RFC.detectDrift c (some old) nowMs nowIso apiVersion).hasDrift = true ↔
        (∃ n, n ∈ RFC.extractTypeNames (RFC.generateContractsFile c nowMs nowIso apiVersion) ∧
            n ∉ RFC.extractTypeNames old) ∨
        (∃ n, n ∈ RFC.extractTypeNames old ∧
            n ∉ RFC.extractTypeNames (RFC.generateContractsFile c nowMs nowIso apiVersion)))) ∧
    (∀ old : String, old ≠ RFC.generateContractsFile c nowMs nowIso apiVersion →
      (RFC.extractTypeNames (RFC.generateContractsFile c nowMs nowIso apiVersion)).filter
          (fun t => !(RFC.extractTypeNames old).contains t) = [] →
      (RFC.extractTypeNames old).filter
          (fun t => !(RFC.extractTypeNames
            (RFC.generateContractsFile c nowMs nowIso apiVersion)).contains t) ≠ [] →
      (RFC.detectDrift c (some old) nowMs nowIso apiVersion).summary =
        "Removed types: " ++ jsJoin ", " ((RFC.extractTypeNames old).filter
          (fun t => !(RFC.extractTypeNames
            (RFC.generateContractsFile c nowMs nowIso apiVersion)).contains t)) ++ "\n" ∧
      (RFC.detectDrift c (some old) nowMs nowIso apiVersion).hasDrift = true) := by
  refine ⟨rfl, ?_, ?_, ?_⟩
  · unfold RFC.detectDrift
    simp
  · intro old hne
    unfold RFC.detectDrift
    simp only [if_neg hne, Bool.or_eq_true, decide_eq_true_eq, gt_iff_lt,
      List.length_pos]
    rw [filter_not_contains_ne_nil_iff, filter_not_contains_ne_nil_iff]
  · intro old hne hadd hrem
    unfold RFC.detectDrift
    have hrlen : 0 < ((RFC.extractTypeNames old).filter
        (fun t => !(RFC.extractTypeNames
          (RFC.generateContractsFile c nowMs nowIso apiVersion)).contains t)).length :=
      List.length_pos.mpr hrem
    simp only [if_neg hne, hadd, List.length_nil, gt_iff_lt, Nat.lt_irrefl,
      if_false, hrlen, if_true, string_empty_append]
    refine ⟨?_, ?_⟩
    · rw [if_neg (removedSummary_ne_empty _)]
    · simp [hrlen]

end TypeExt

namespace TypeExt

set_option maxRecDepth 1000000 in
/-- C3 witness: the drift semantics at a concrete removal — regenerating
from a context without `B` against a prior artifact containing `B` reports
`B` under `Removed types` and nothing under `Added`. -/
theorem detectDrift_name_set_semantics_witness :
    (RFC.detectDrift emptyCtx (some oldArtifact) 5 "2026-01-01T00:00:00.000Z" none).summary =
        "Removed types: B\n" ∧
    (RFC.detectDrift emptyCtx (some oldArtifact) 5 "2026-01-01T00:00:00.000Z" none).hasDrift =
        true := by
  have h := (detectDrift_name_set_semantics emptyCtx 5 "2026-01-01T00:00:00.000Z" none).2.2.2
    oldArtifact (by decide) (by decide) (by decide)
  refine ⟨?_, h.2⟩
  rw [h.1]
  decide

/-- C2: with fail-on-drift enabled, an existing committed artifact and drift
detected, `generate` throws the `Type drift detected` error carrying the
added/removed summary, and the throw happens strictly before any write: the
error carries the file system exactly as given — the contracts artifact
still holds its previous content and the manifest slot is untouched. -/
theorem generate_failOnDrift_aborts_before_write (cfg : RFC.RFCGeneratorConfig)
    (c : ExtractionContext) (nowMs : Nat) (nowIso old : String) (fs : RFC.FS)
    (hcfg : cfg.failOnDrift = true)
    (hold : fs.outputFile = some old)
    (hdrift : (RFC.detectDrift c (some old) nowMs nowIso cfg.apiVersion).hasDrift = true) :
    RFC.generate cfg c nowMs nowIso fs =
      Except.error ("Type drift detected:\n" ++
        (RFC.detectDrift c (some old) nowMs nowIso cfg.apiVersion).summary, fs) := by
  unfold RFC.generate
  rw [hcfg, hold]
  simp [hdrift]

set_option maxRecDepth 1000000 in
/-- C2 witness: the drift abort at a concrete drifting input; the carried
file system is the input one, so the committed artifact's content is
unchanged and no manifest was written. -/
theorem generate_failOnDrift_aborts_before_write_witness :
    RFC.generate failCfg emptyCtx 5 "2026-01-01T00:00:00.000Z" fsWithOld =
      Except.error ("Type drift detected:\nRemoved types: B\n", fsWithOld) := by
  have h := generate_failOnDrift_aborts_before_write failCfg emptyCtx 5
    "2026-01-01T00:00:00.000Z" oldArtifact fsWithOld rfl rfl (by decide)
  rw [h]
  have hs : (RFC.detectDrift emptyCtx (some oldArtifact) 5 "2026-01-01T00:00:00.000Z"
      failCfg.apiVersion).summary = "Removed types: B\n" := by decide
  rw [hs]
  rfl

end TypeExt

namespace TypeExt

/-!
## Claim C9 — word-boundary matching of the forbidden-token scan
-/

theorem wholeWordAnyAt_ge (prev : Option Char) (l : List Char) (j : Nat)
    (hj : l.length ≤ j) : wholeWordAnyAt prev l j = false := by
  unfold wholeWordAnyAt
  rw [List.drop_eq_nil_of_le hj]

theorem wholeWordAnyAt_succ (prev : Option Char) (c : Char) (rest : List Char) (j : Nat) :
    wholeWordAnyAt prev (c :: rest) (j + 1) = wholeWordAnyAt (some c) rest j := by
  unfold wholeWordAnyAt
  rw [List.drop_succ_cons]
  cases hd : rest.drop j with
  | nil => rfl
  | cons d tl =>
    cases j with
    | zero => simp [Morph.boundaryBefore, wordCharAtOpt]
    | succ k => simp [List.getElem?_cons_succ]

theorem findAnyPositionsAux_eq_nil :
    ∀ (fuel : Nat) (l : List Char) (prev : Option Char) (i : Nat),
      (∀ j, wholeWordAnyAt prev l j = false) →
      Morph.findAnyPositionsAux fuel prev l i = [] := by
  intro fuel
  induction fuel with
  | zero => intro l prev i _; rfl
  | succ fuel ih =>
    intro l prev i h
    match l with
    | [] => rfl
    | c :: rest =>
      have hcond : (c == 'a' && rest.take 2 == ['n', 'y'] &&
          Morph.boundaryBefore prev && Morph.boundaryAfter (rest.drop 2)) = false := h 0
      rw [Morph.findAnyPositionsAux, hcond]
      simp only [Bool.false_eq_true, if_false]
      refine ih rest (some c) (i + 1) (fun j => ?_)
      rw [← wholeWordAnyAt_succ prev c rest j]
      exact h (j + 1)

/-- C9: word-boundary matching — for every definition in which the token
`any` occurs only as a proper substring of a longer identifier (no
whole-word occurrence anywhere), the forbidden-type scan reports zero
occurrences, and consequently the guard passes such a type without touching
the context. -/
theorem findAny_word_boundary (s : String)
    (h : ∀ j, j < s.data.length → wholeWordAnyAt none s.data j = false) :
    Morph.findAnyInDefinition s = [] ∧
    (∀ (c : ExtractionContext) (nm : String) (et : ExtractedType),
      et.definition = s → Morph.detectAnyTypesGo c [(nm, et)] = Except.ok c) := by
  have hall : ∀ j, wholeWordAnyAt none s.data j = false := by
    intro j
    by_cases hj : j < s.data.length
    · exact h j hj
    · exact wholeWordAnyAt_ge none s.data j (Nat.le_of_not_lt hj)
  have hfind : Morph.findAnyInDefinition s = [] := by
    unfold Morph.findAnyInDefinition Morph.findAnyPositions
    rw [findAnyPositionsAux_eq_nil (s.data.length + 1) s.data none 0 hall]
    rfl
  refine ⟨hfind, fun c nm et hdef => ?_⟩
  rw [Morph.detectAnyTypesGo, hdef, hfind]
  rfl

/-- C9 witness: the scan at the two identifiers from the claim — `Anything`
and `company` contain the token only inside a longer word and report zero
occurrences. -/
theorem findAny_word_boundary_witness :
    Morph.findAnyInDefinition "Anything" = [] ∧ Morph.findAnyInDefinition "company" = [] :=
  ⟨(findAny_word_boundary "Anything" (by decide)).1,
   (findAny_word_boundary "company" (by decide)).1⟩

end TypeExt

namespace TypeExt

/-!
## Claim C8 — extraction metrics on clean, fully annotated input
-/

theorem mem_mapSet {m : List (String × ExtractedType)} {k : String}
    {v : ExtractedType} {p : String × ExtractedType}
    (hp : p ∈ mapSet m k v) : p ∈ m ∨ p = (k, v) := by
  unfold mapSet at hp
  split at hp
  · obtain ⟨q, hq, hfq⟩ := List.mem_map.mp hp
    by_cases hqk : q.1 = k
    · right
      rw [← hfq]
      simp [hqk]
    · left
      rw [← hfq]
      simpa [hqk] using hq
  · rcases List.mem_append.mp hp with h1 | h2
    · exact Or.inl h1
    · right
      simpa using h2

theorem extractInterface_ok (path : String) :
    ExtStepOk (Morph.extractInterface path) := by
  intro c d
  unfold Morph.extractInterface
  cases h : isExcluded c.rules d.name
  · rw [if_neg Bool.false_ne_true]
    refine ⟨rfl, rfl, rfl, rfl, by simp, fun p hp => ?_⟩
    rcases mem_mapSet hp with h1 | h2
    · exact Or.inl h1
    · exact Or.inr (by rw [h2])
  · rw [if_pos rfl]
    exact ⟨rfl, rfl, rfl, rfl, by simp, fun p hp => Or.inl hp⟩

theorem extractTypeAlias_ok (path : String) :
    ExtStepOk (Morph.extractTypeAlias path) := by
  intro c d
  unfold Morph.extractTypeAlias
  cases h : isExcluded c.rules d.name
  · rw [if_neg Bool.false_ne_true]
    refine ⟨rfl, rfl, rfl, rfl, by simp, fun p hp => ?_⟩
    rcases mem_mapSet hp with h1 | h2
    · exact Or.inl h1
    · exact Or.inr (by rw [h2])
  · rw [if_pos rfl]
    exact ⟨rfl, rfl, rfl, rfl, by simp, fun p hp => Or.inl hp⟩

theorem extractEnum_ok (path : String) :
    ExtStepOk (Morph.extractEnum path) := by
  intro c d
  unfold Morph.extractEnum
  cases h : isExcluded c.rules d.name
  · rw [if_neg Bool.false_ne_true]
    refine ⟨rfl, rfl, rfl, rfl, by simp, fun p hp => ?_⟩
    rcases mem_mapSet hp with h1 | h2
    · exact Or.inl h1
    · exact Or.inr (by rw [h2])
  · rw [if_pos rfl]
    exact ⟨rfl, rfl, rfl, rfl, by simp, fun p hp => Or.inl hp⟩

theorem extractClass_ok (path : String) :
    ExtStepOk (Morph.extractClass path) := by
  intro c d
  unfold Morph.extractClass
  cases h : isExcluded c.rules d.name
  · rw [if_neg Bool.false_ne_true]
    refine ⟨rfl, rfl, rfl, rfl, by simp, fun p hp => ?_⟩
    rcases mem_mapSet hp with h1 | h2
    · exact Or.inl h1
    · exact Or.inr (by rw [h2])
  · rw [if_pos rfl]
    exact ⟨rfl, rfl, rfl, rfl, by simp, fun p hp => Or.inl hp⟩

theorem foldl_extStep
    {g : ExtractionContext → Morph.Decl → ExtractionContext} (hg : ExtStepOk g) :
    ∀ (ds : List Morph.Decl) (c : ExtractionContext),
      (ds.foldl g c).rules = c.rules ∧
      (ds.foldl g c).errors = c.errors ∧
      (ds.foldl g c).sourceFiles = c.sourceFiles ∧
      (ds.foldl g c).metrics.anyTypeViolations = c.metrics.anyTypeViolations ∧
      (ds.foldl g c).metrics.typesExtracted =
        c.metrics.typesExtracted +
          (ds.filter (fun d => !isExcluded c.rules d.name)).length ∧
      (∀ p ∈ (ds.foldl g c).types, p ∈ c.types ∨ ∃ d ∈ ds, p.2.definition = d.fullText) := by
  intro ds
  induction ds with
  | nil =>
    intro c
    refine ⟨rfl, rfl, rfl, rfl, by simp, fun p hp => Or.inl hp⟩
  | cons d rest ih =>
    intro c
    obtain ⟨gr, ge, gs, gv, gt, gm⟩ := hg c d
    obtain ⟨hr, he, hs, hv, ht, hm⟩ := ih (g c d)
    rw [List.foldl_cons]
    refine ⟨hr.trans gr, he.trans ge, hs.trans gs, hv.trans gv, ?_, ?_⟩
    · rw [ht, gr, gt, List.filter_cons]
      by_cases hx : isExcluded c.rules d.name
      · simp [hx]
      · simp [hx]
        omega
    · intro p hp
      rcases hm p hp with hin | ⟨d', hd', hdef⟩
      · rcases gm p hin with h1 | h2
        · exact Or.inl h1
        · exact Or.inr ⟨d, List.mem_cons_self _ _, h2⟩
      · exact Or.inr ⟨d', List.mem_cons_of_mem _ hd', hdef⟩

theorem count_partition (rules : ExtractionRules) (ds : List Morph.Decl)
    (h : ∀ d ∈ ds, d.kind ≠ DeclKind.classDecl) :
    ((ds.filter (fun d => d.kind = DeclKind.iface)).filter
        (fun d => !isExcluded rules d.name)).length +
    ((ds.filter (fun d => d.kind = DeclKind.alias)).filter
        (fun d => !isExcluded rules d.name)).length +
    ((ds.filter (fun d => d.kind = DeclKind.enumDecl)).filter
        (fun d => !isExcluded rules d.name)).length =
    (ds.filter (fun d => !isExcluded rules d.name)).length := by
  induction ds with
  | nil => rfl
  | cons d rest ih =>
    have hd : d.kind ≠ DeclKind.classDecl := h d (List.mem_cons_self _ _)
    have ih' := ih (fun x hx => h x (List.mem_cons_of_mem _ hx))
    by_cases he : isExcluded rules d.name <;>
      cases hk : d.kind <;>
        simp_all [List.filter_cons] <;> omega

end TypeExt

namespace TypeExt

theorem ctxInv_mono {c c2 : ExtractionContext} {n : Nat} {T T2 : List String}
    (h : CtxInv c c2 n T) (hsub : T ⊆ T2) : CtxInv c c2 n T2 := by
  obtain ⟨hr, he, hs, hv, ht, hm⟩ := h
  refine ⟨hr, he, hs, hv, ht, fun p hp => ?_⟩
  rcases hm p hp with h1 | h2
  · exact Or.inl h1
  · exact Or.inr (hsub h2)

theorem ctxInv_comp {c c1 c2 : ExtractionContext} {n1 n2 : Nat} {T : List String}
    (h1 : CtxInv c c1 n1 T) (h2 : CtxInv c1 c2 n2 T) :
    CtxInv c c2 (n1 + n2) T := by
  obtain ⟨ar, ae, as', av, at', am⟩ := h1
  obtain ⟨br, be, bs, bv, bt, bm⟩ := h2
  refine ⟨br.trans ar, be.trans ae, bs.trans as', bv.trans av, ?_, fun p hp => ?_⟩
  · rw [bt, at']
    omega
  · rcases bm p hp with hin | hdef
    · exact am p hin
    · exact Or.inr hdef

theorem foldl_extStep_inv {g : ExtractionContext → Morph.Decl → ExtractionContext}
    (hg : ExtStepOk g) (ds : List Morph.Decl) (c : ExtractionContext) :
    CtxInv c (ds.foldl g c)
      ((ds.filter (fun d => !isExcluded c.rules d.name)).length)
      (ds.map Morph.Decl.fullText) := by
  obtain ⟨hr, he, hs, hv, ht, hm⟩ := foldl_extStep hg ds c
  refine ⟨hr, he, hs, hv, ht, fun p hp => ?_⟩
  rcases hm p hp with h1 | ⟨d, hd, hdef⟩
  · exact Or.inl h1
  · exact Or.inr (hdef ▸ List.mem_map_of_mem Morph.Decl.fullText hd)

theorem parseFile_inv (pred : Morph.Decl → Bool) (c : ExtractionContext)
    (f : Morph.SrcFile) (hnoclass : ∀ d ∈ f.decls, d.kind ≠ DeclKind.classDecl) :
    CtxInv c (Morph.parseFile pred c f)
      ((f.decls.filter (fun d => !isExcluded c.rules d.name)).length)
      (f.decls.map Morph.Decl.fullText) := by
  have hcl : (f.decls.filter (fun d => d.kind = DeclKind.classDecl && pred d)) = [] := by
    rw [List.filter_eq_nil_iff]
    intro d hd
    simp [hnoclass d hd]
  have hstep : Morph.parseFile pred c f =
      (f.decls.filter (fun d => d.kind = DeclKind.enumDecl)).foldl (Morph.extractEnum f.path)
        ((f.decls.filter (fun d => d.kind = DeclKind.alias)).foldl (Morph.extractTypeAlias f.path)
          ((f.decls.filter (fun d => d.kind = DeclKind.iface)).foldl (Morph.extractInterface f.path)
            { c with metrics := { c.metrics with filesParsed := c.metrics.filesParsed + 1 } })) := by
    unfold Morph.parseFile
    rw [hcl, List.foldl_nil]
  rw [hstep]
  set c0 : ExtractionContext :=
    { c with metrics := { c.metrics with filesParsed := c.metrics.filesParsed + 1 } } with hc0
  set cA := (f.decls.filter (fun d => d.kind = DeclKind.iface)).foldl
    (Morph.extractInterface f.path) c0 with hcA
  set cB := (f.decls.filter (fun d => d.kind = DeclKind.alias)).foldl
    (Morph.extractTypeAlias f.path) cA with hcB
  have hsub1 : ((f.decls.filter (fun d => d.kind = DeclKind.iface)).map Morph.Decl.fullText) ⊆
      f.decls.map Morph.Decl.fullText := List.map_subset _ (fun _ hx => List.mem_of_mem_filter hx)
  have hsub2 : ((f.decls.filter (fun d => d.kind = DeclKind.alias)).map Morph.Decl.fullText) ⊆
      f.decls.map Morph.Decl.fullText := List.map_subset _ (fun _ hx => List.mem_of_mem_filter hx)
  have hsub3 : ((f.decls.filter (fun d => d.kind = DeclKind.enumDecl)).map Morph.Decl.fullText) ⊆
      f.decls.map Morph.Decl.fullText := List.map_subset _ (fun _ hx => List.mem_of_mem_filter hx)
  have h0 : CtxInv c c0 0 (f.decls.map Morph.Decl.fullText) :=
    ⟨rfl, rfl, rfl, rfl, by simp, fun p hp => Or.inl hp⟩
  have h1 := ctxInv_mono (foldl_extStep_inv (extractInterface_ok f.path)
    (f.decls.filter (fun d => d.kind = DeclKind.iface)) c0) hsub1
  rw [show c0.rules = c.rules from rfl] at h1
  have hA := ctxInv_comp h0 h1
  have h2 := ctxInv_mono (foldl_extStep_inv (extractTypeAlias_ok f.path)
    (f.decls.filter (fun d => d.kind = DeclKind.alias)) cA) hsub2
  rw [hA.1] at h2
  have hB := ctxInv_comp hA h2
  have h3 := ctxInv_mono (foldl_extStep_inv (extractEnum_ok f.path)
    (f.decls.filter (fun d => d.kind = DeclKind.enumDecl)) cB) hsub3
  rw [hB.1] at h3
  have hC := ctxInv_comp hB h3
  have hcount := count_partition c.rules f.decls hnoclass
  rw [show (0 +
      ((f.decls.filter (fun d => d.kind = DeclKind.iface)).filter
        (fun d => !isExcluded c.rules d.name)).length +
      ((f.decls.filter (fun d => d.kind = DeclKind.alias)).filter
        (fun d => !isExcluded c.rules d.name)).length +
      ((f.decls.filter (fun d => d.kind = DeclKind.enumDecl)).filter
        (fun d => !isExcluded c.rules d.name)).length) =
      (f.decls.filter (fun d => !isExcluded c.rules d.name)).length from by omega] at hC
  exact hC

end TypeExt

namespace TypeExt

theorem foldl_parseFile_inv (pred : Morph.Decl → Bool) :
    ∀ (fs : List Morph.SrcFile) (c : ExtractionContext),
      (∀ f ∈ fs, ∀ d ∈ f.decls, d.kind ≠ DeclKind.classDecl) →
      CtxInv c (fs.foldl (Morph.parseFile pred) c)
        (((fs.map Morph.SrcFile.decls).flatten.filter
          (fun d => !isExcluded c.rules d.name)).length)
        ((fs.map Morph.SrcFile.decls).flatten.map Morph.Decl.fullText) := by
  intro fs
  induction fs with
  | nil =>
    intro c _
    exact ⟨rfl, rfl, rfl, rfl, by simp, fun p hp => Or.inl hp⟩
  | cons f fs ih =>
    intro c h
    have hf := parseFile_inv pred c f (h f (List.mem_cons_self _ _))
    have hrest := ih (Morph.parseFile pred c f)
      (fun g hg => h g (List.mem_cons_of_mem _ hg))
    rw [hf.1] at hrest
    have hsubf : (f.decls.map Morph.Decl.fullText) ⊆
        (((f :: fs).map Morph.SrcFile.decls).flatten.map Morph.Decl.fullText) := by
      simp only [List.map_cons, List.flatten_cons, List.map_append]
      exact fun x hx => List.mem_append_left _ hx
    have hsubr : (((fs.map Morph.SrcFile.decls).flatten).map Morph.Decl.fullText) ⊆
        (((f :: fs).map Morph.SrcFile.decls).flatten.map Morph.Decl.fullText) := by
      simp only [List.map_cons, List.flatten_cons, List.map_append]
      exact fun x hx => List.mem_append_right _ hx
    have hcomp := ctxInv_comp (ctxInv_mono hf hsubf) (ctxInv_mono hrest hsubr)
    rw [List.foldl_cons]
    rw [show ((f.decls.filter (fun d => !isExcluded c.rules d.name)).length +
        (((fs.map Morph.SrcFile.decls).flatten.filter
          (fun d => !isExcluded c.rules d.name)).length) =
        ((((f :: fs).map Morph.SrcFile.decls).flatten.filter
          (fun d => !isExcluded c.rules d.name)).length)) from by
      simp [List.filter_append]] at hcomp
    exact hcomp

theorem detectAnyTypes_all_ok (c : ExtractionContext)
    (h : ∀ p ∈ c.types, Morph.findAnyInDefinition p.2.definition = []) :
    Morph.detectAnyTypes c = Except.ok c := by
  unfold Morph.detectAnyTypes
  have := detectAnyTypesGo_skip_ok c c.types [] h
  rw [List.append_nil] at this
  rw [this]
  rfl

/-- C8: on input containing only recognized declarations (interfaces, type
aliases, enums), fully annotated and free of whole-word forbidden tokens,
with pairwise distinct names, `extract` (with no-op adapter stages) returns
a context whose `typesExtracted` equals the number of non-excluded top-level
declarations, whose `anyTypeViolations` is 0, and whose error list is empty —
in particular an excluded declaration contributes to no metric and produces
no error entry. -/
theorem extract_clean_input_counts (pred : Morph.Decl → Bool)
    (rules : ExtractionRules) (startTime : Nat) (files : List Morph.SrcFile)
    (hkinds : ∀ f ∈ files, ∀ d ∈ f.decls, d.kind ≠ DeclKind.classDecl)
    (hann : ∀ f ∈ files, ∀ d ∈ f.decls, ∀ q ∈ d.props, q.typeNodeText.isSome = true)
    (hnames : (((files.map Morph.SrcFile.decls).flatten).map Morph.Decl.name).Nodup)
    (hnoAny : ∀ f ∈ files, ∀ d ∈ f.decls, Morph.findAnyInDefinition d.fullText = []) :
    (Morph.extract pred Except.ok Except.ok rules startTime files).metrics.typesExtracted =
      ((files.map Morph.SrcFile.decls).flatten.filter
        (fun d => !isExcluded rules d.name)).length ∧
    (Morph.extract pred Except.ok Except.ok rules startTime files).metrics.anyTypeViolations = 0 ∧
    (Morph.extract pred Except.ok Except.ok rules startTime files).errors = [] := by
  obtain ⟨hr, he, hs, hv, ht, hm⟩ := foldl_parseFile_inv pred files
    ({ Morph.initialContext rules startTime with
        sourceFiles := files.map Morph.SrcFile.path }) hkinds
  have hnoAnyJoin : ∀ d ∈ (files.map Morph.SrcFile.decls).flatten,
      Morph.findAnyInDefinition d.fullText = [] := by
    intro d hd
    obtain ⟨ds, hds, hdin⟩ := List.mem_flatten.mp hd
    obtain ⟨f, hf, rfl⟩ := List.mem_map.mp hds
    exact hnoAny f hf d hdin
  have hdetect : Morph.detectAnyTypes
      (files.foldl (Morph.parseFile pred)
        ({ Morph.initialContext rules startTime with
            sourceFiles := files.map Morph.SrcFile.path })) =
      Except.ok (files.foldl (Morph.parseFile pred)
        ({ Morph.initialContext rules startTime with
            sourceFiles := files.map Morph.SrcFile.path })) := by
    refine detectAnyTypes_all_ok _ (fun p hp => ?_)
    rcases hm p hp with hin | hdef
    · simp [Morph.initialContext] at hin
    · obtain ⟨d, hd, hdd⟩ := List.mem_map.mp hdef
      rw [← hdd]
      exact hnoAnyJoin d hd
  have hrun : Morph.runPipeline pred Except.ok Except.ok files
      ({ Morph.initialContext rules startTime with
          sourceFiles := files.map Morph.SrcFile.path }) =
      Except.ok (files.foldl (Morph.parseFile pred)
        ({ Morph.initialContext rules startTime with
            sourceFiles := files.map Morph.SrcFile.path })) := by
    show Morph.detectAnyTypes _ = _
    exact hdetect
  have hex : Morph.extract pred Except.ok Except.ok rules startTime files =
      files.foldl (Morph.parseFile pred)
        ({ Morph.initialContext rules startTime with
            sourceFiles := files.map Morph.SrcFile.path }) := by
    simp only [Morph.extract]
    rw [hrun]
  rw [hex]
  refine ⟨?_, ?_, ?_⟩
  · rw [ht]
    simp [Morph.initialContext]
  · rw [hv]
    rfl
  · rw [he]
    rfl

end TypeExt

namespace TypeExt

set_option maxRecDepth 40000 in
/-- C8 witness: the clean-input metrics at a concrete file of four
declarations, one excluded — three types extracted, no violations, no
errors. -/
theorem extract_clean_input_counts_witness :
    (Morph.extract (fun _ => false) Except.ok Except.ok cleanRules 0
        [cleanFile]).metrics.typesExtracted = 3 ∧
    (Morph.extract (fun _ => false) Except.ok Except.ok cleanRules 0
        [cleanFile]).metrics.anyTypeViolations = 0 ∧
    (Morph.extract (fun _ => false) Except.ok Except.ok cleanRules 0
        [cleanFile]).errors = [] := by
  have h := extract_clean_input_counts (fun _ => false) cleanRules 0 [cleanFile]
    (by decide) (by decide) (by decide) (by decide)
  refine ⟨?_, h.2.1, h.2.2⟩
  rw [h.1]
  decide

end TypeExt
